import Mathlib

/-!
# Verification of the pysh2 combinator core against its specification

Shallow embedding of the `core` package: the generic processor
(`src/core/processor.py`), its stream specialization
(`src/core/stream_processor.py`), the lexer (`src/core/lexer.py`), the
parser module used by the loader, and the loader (`src/core/loader.py`).

Python strings are modelled as `List Char`; Python `Sequence` fields as
`List`; `Mapping`/`dict` as insertion-ordered association lists; fallible
code returns `Except Error` values, with a `Nat` fuel argument making the
recursive rule-application function total (`none` = fuel exhausted; the
Python code recurses without bound).
-/

namespace Pysh

/-- `processor.Error`: failure tree with an optional rule name, an optional
leaf message and nested child errors. -/
inductive Error : Type where
  | mk (rule_name : Option String) (msg : Option String) (children : List Error)
deriving Repr

def Error.rule_name : Error → Option String
  | .mk n _ _ => n

def Error.msg : Error → Option String
  | .mk _ m _ => m

def Error.children : Error → List Error
  | .mk _ _ cs => cs

/-- `Error.with_rule_name`: rebuild the error with the given rule name
(replacing any existing one), keeping msg and children. -/
def Error.with_rule_name (e : Error) (rule_name : String) : Error :=
  .mk (some rule_name) e.msg e.children

/-- `processor.Result`: parse-tree node with an optional rule name, an
optional leaf value and ordered children. -/
inductive Result (α : Type) : Type where
  | mk (rule_name : Option String) (value : Option α) (children : List (Result α))
deriving Repr

def Result.rule_name {α : Type} : Result α → Option String
  | .mk n _ _ => n

def Result.value {α : Type} : Result α → Option α
  | .mk _ v _ => v

def Result.children {α : Type} : Result α → List (Result α)
  | .mk _ _ cs => cs

/-- `Result.with_rule_name`: rebuild with the given rule name (replacing
any existing one). -/
def Result.with_rule_name {α : Type} (r : Result α) (rule_name : String) : Result α :=
  .mk (some rule_name) r.value r.children

/-- `ResultAndState.as_child_result`: wrap the result as the sole child of
an anonymous node, keeping the state. -/
def as_child_result {α σ : Type} (p : Result α × σ) : Result α × σ :=
  (.mk none none [p.1], p.2)

/-- `processor.Rule`: the rule variants of `processor.py`. `base` stands
for a leaf rule implementing `apply` directly (the host subclasses such as
`stream_processor.HeadRule` instances or the test literals): a pure
function from the state value to a result/state pair or an `Error`.
`notr` models `lexer.Not`: a child rule plus the leaf primitive `hl` that
consumes the head item of the state (lexer.py lines 170-188). -/
inductive Rule (α σ : Type) : Type where
  | base (f : σ → Except Error (Result α × σ))
  | notr (child : Rule α σ) (hl : σ → Except Error (Result α × σ))
  | ref (rule_name : String)
  | and (children : List (Rule α σ))
  | or (children : List (Rule α σ))
  | zeroOrMore (child : Rule α σ)
  | oneOrMore (child : Rule α σ)
  | zeroOrOne (child : Rule α σ)
  | untilEmpty (child : Rule α σ)

/-- `processor.Processor`: a root rule name and a name-to-rule registry
(Python `Mapping`, modelled as an insertion-ordered association list with
unique keys). -/
structure Grammar (α σ : Type) : Type where
  root_rule_name : String
  rules : List (String × Rule α σ)

/-- Registry lookup, `self.rules[rule_name]` guarded by
`rule_name not in self.rules`. -/
def lookupRule {α σ : Type} (g : Grammar α σ) (rule_name : String) : Option (Rule α σ) :=
  (g.rules.find? (fun p => p.1 = rule_name)).map (fun p => p.2)

/-- Outcome of one rule application: `none` when the fuel bound was hit
(the Python code just keeps recursing), otherwise the `Result × State` or
the raised `Error`. -/
abbrev PRes (α σ : Type) : Type := Except Error (Result α × σ)

/-- Loop body of `And.apply`: apply the children left to right threading
the state. A child `Error` propagates unchanged (processor.py lines
178-187 have no try/except); on success the collected child results are
wrapped in one anonymous node. -/
def andGo {α σ : Type} (applyC : Rule α σ → σ → Option (PRes α σ)) :
    List (Rule α σ) → σ → List (Result α) → Option (PRes α σ)
  | [], st, acc => some (.ok (.mk none none acc, st))
  | c :: cs, st, acc =>
    match applyC c st with
    | none => none
    | some (.error e) => some (.error e)
    | some (.ok (res, st')) => andGo applyC cs st' (acc ++ [res])

/-- Loop body of `Or.apply`: try the children in order, returning the
first success wrapped via `as_child_result`; accumulate every child error
and, if all fail, raise an error carrying all of them as children
(processor.py lines 197-204). -/
def orGo {α σ : Type} (applyC : Rule α σ → σ → Option (PRes α σ)) :
    List (Rule α σ) → σ → List Error → Option (PRes α σ)
  | [], _, errs => some (.error (.mk none none errs))
  | c :: cs, st, errs =>
    match applyC c st with
    | none => none
    | some (.ok p) => some (.ok (as_child_result p))
    | some (.error e) => orGo applyC cs st (errs ++ [e])

/-- Repetition loop shared by `ZeroOrMore.apply` and the tail of
`OneOrMore.apply`: apply the child until it fails, collecting results; the
first failure stops the loop and is swallowed. The `Nat` bounds the number
of iterations (the Python `while True` is unbounded). -/
def repGo {α σ : Type} (applyC : σ → Option (PRes α σ)) :
    Nat → σ → List (Result α) → Option (PRes α σ)
  | 0, _, _ => none
  | lf + 1, st, acc =>
    match applyC st with
    | none => none
    | some (.error _) => some (.ok (.mk none none acc, st))
    | some (.ok (res, st')) => repGo applyC lf st' (acc ++ [res])

/-- Error raised by `UntilEmpty.apply` when a repetition returns the state
it was applied to. The Python message interpolates the `repr` of the rule,
state and result; the claims only depend on an explicit error being
raised, so the interpolations are elided. -/
def notAdvancingError : Error := .mk none (some "not advancing") []

/-- Loop body of `UntilEmpty.apply` (processor.py lines 274-286): repeat
the child while the state is non-empty; a child error propagates
unchanged; a repetition that returns an unchanged state raises
`notAdvancingError` instead of looping forever. -/
def ueGo {α σ : Type} [DecidableEq σ] (emp : σ → Bool) (applyC : σ → Option (PRes α σ)) :
    Nat → σ → List (Result α) → Option (PRes α σ)
  | 0, _, _ => none
  | lf + 1, st, acc =>
    if emp st then some (.ok (.mk none none acc, st))
    else
      match applyC st with
      | none => none
      | some (.error e) => some (.error e)
      | some (.ok (res, st')) =>
        if st' = st then some (.error notAdvancingError)
        else ueGo emp applyC lf st' (acc ++ [res])

/-- Result annotation applied at a named-rule boundary.
`processor.Result.with_rule_name` replaces the node's name; the parser
module used by the loader instead makes the boundary visible by wrapping
(see `parserAnnot` below). The behaviour is a parameter so both modules
share one interpreter. -/
abbrev Annot (α : Type) : Type := String → Result α → Result α

/-- processor.py's annotation: `result.with_rule_name(rule_name)`. -/
def replaceAnnot {α : Type} : Annot α := fun n r => r.with_rule_name n

/-- `Rule.apply` (processor.py): one polymorphic recursive function over
the rule variants. `fuel` decreases at each rule layer and bounds
repetition counts; `none` means the bound was hit. The `ref` case inlines
`Processor.apply_rule_to_state` (lookup, apply, annotate on success or
failure, lines 138-148) followed by `Ref.apply`'s wrapping (lines
164-168). -/
def runRule {α σ : Type} [DecidableEq σ] (emp : σ → Bool) (annot : Annot α)
    (g : Grammar α σ) : Nat → Rule α σ → σ → Option (PRes α σ)
  | 0, _, _ => none
  | fuel + 1, r, st =>
    match r with
    | .base f => some (f st)
    | .notr c hl =>
      if emp st then some (.error (.mk none (some "state empty") []))
      else
        match runRule emp annot g fuel c st with
        | none => none
        | some (.error _) => some (hl st)
        | some (.ok _) => some (.error (.mk none (some "child applied") []))
    | .ref n =>
      match lookupRule g n with
      | none => some (.error (.mk none (some ("unknown rule " ++ n)) []))
      | some r2 =>
        match runRule emp annot g fuel r2 st with
        | none => none
        | some (.ok (res, st')) => some (.ok (.mk none none [annot n res], st'))
        | some (.error e) => some (.error (.mk none none [e.with_rule_name n]))
    | .and cs => andGo (runRule emp annot g fuel) cs st []
    | .or cs => orGo (runRule emp annot g fuel) cs st []
    | .zeroOrMore c => repGo (runRule emp annot g fuel c) (fuel + 1) st []
    | .oneOrMore c =>
      match runRule emp annot g fuel c st with
      | none => none
      | some (.error e) => some (.error e)
      | some (.ok (res, st')) => repGo (runRule emp annot g fuel c) (fuel + 1) st' [res]
    | .zeroOrOne c =>
      match runRule emp annot g fuel c st with
      | none => none
      | some (.ok p) => some (.ok (as_child_result p))
      | some (.error _) => some (.ok (.mk none none [], st))
    | .untilEmpty c => ueGo emp (runRule emp annot g fuel c) (fuel + 1) st []

/-- `Processor.apply_rule_to_state` (processor.py lines 138-148): an
unknown rule name raises a descriptive `Error`; otherwise the rule is
applied and the returned `Result`, or the propagated `Error`, is annotated
with the invoked rule's name. -/
def apply_rule_to_state {α σ : Type} [DecidableEq σ] (emp : σ → Bool) (annot : Annot α)
    (g : Grammar α σ) (fuel : Nat) (rule_name : String) (st : σ) : Option (PRes α σ) :=
  match lookupRule g rule_name with
  | none => some (.error (.mk none (some ("unknown rule " ++ rule_name)) []))
  | some r =>
    match runRule emp annot g fuel r st with
    | none => none
    | some (.ok (res, st')) => some (.ok (annot rule_name res, st'))
    | some (.error e) => some (.error (e.with_rule_name rule_name))

/-- `stream_processor.Stream.head`'s failure on an empty stream
(stream_processor.py lines 21-26). -/
def streamEmptyError : Error := .mk none (some "stream empty") []

/-- `stream_processor.HeadRule.apply` (lines 55-69): read the head of the
stream (raising `streamEmptyError` when empty, via `Stream.head`), test
the predicate, and on success consume exactly one item, returning the
result built from the head. -/
def headFun {ι α : Type} (pred : ι → Bool) (mkRes : ι → Result α) (mismatch : ι → Error) :
    List ι → Except Error (Result α × List ι)
  | [] => .error streamEmptyError
  | h :: t => if pred h then .ok (mkRes h, t) else .error (mismatch h)

/-! ## Result tree query algebra (`processor.Result.where` etc.) -/

/-- Predicate `Result.rule_name_is`. -/
def rule_name_is {α : Type} (rule_name : String) (r : Result α) : Bool :=
  r.rule_name = some rule_name

/-- Predicate `Result.rule_name_in`: Python `result.rule_name in rule_names`
(`None` is never an element of a list of strings). -/
def rule_name_in {α : Type} (rule_names : List String) (r : Result α) : Bool :=
  match r.rule_name with
  | none => false
  | some n => rule_names.contains n

mutual
/-- `Result.where`: a synthetic container holding every node satisfying
`p`, document order, outermost-first (no descent below a match). -/
def whereR {α : Type} (p : Result α → Bool) : Result α → Result α
  | .mk n v cs =>
    if p (.mk n v cs) then .mk none none [.mk n v cs]
    else .mk none none (whereList p cs)

/-- `Result.where_children`: concatenation of `where` matches of each
child. -/
def whereList {α : Type} (p : Result α → Bool) : List (Result α) → List (Result α)
  | [] => []
  | c :: cs => (whereR p c).children ++ whereList p cs
end

/-- `Result.skip`: container exposing only the node's children. -/
def Result.skip {α : Type} (r : Result α) : Result α :=
  .mk none none r.children

/-- `Result.where_one`: `where_n(1, pred).children[0]`; any other match
count raises an `Error` (interpolated details elided). -/
def where_one {α : Type} (p : Result α → Bool) (r : Result α) : Except Error (Result α) :=
  match (whereR p r).children with
  | [x] => .ok x
  | _ => .error (.mk none (some "result count mismatch") [])

/-! ## Lexer (`lexer.py`), intended semantics

`StateValue.tail` in lexer.py dereferences `_values`, a field `Stream`
does not have (its field is `values`); executing it raises a host
`AttributeError`. That slip is modelled faithfully below
(`lexStateValue_tail_faithful`) and settled by claim C1; everywhere else
the lexer is modelled with the consume-one-item semantics the base class
`stream_processor.Stream.tail` defines. -/

/-- `lexer.Position`. -/
structure Position : Type where
  line : Nat
  column : Nat
deriving DecidableEq, Repr

/-- `Position.after` (lexer.py lines 20-29): advance through the
characters of `value`, a newline bumping the line and resetting the
column. -/
def Position.after (p : Position) : List Char → Position
  | [] => p
  | c :: rest =>
    Position.after (if c = '\n' then ⟨p.line + 1, 0⟩ else ⟨p.line, p.column + 1⟩) rest

/-- `lexer._Item`: one input character together with its position. -/
structure LexItem : Type where
  value : Char
  position : Position
deriving DecidableEq, Repr

/-- Loop of `lexer.load_state_value`: pair each character with the running
position, advancing by `Position.after` for each consumed character. -/
def load_state_value_go (pos : Position) : List Char → List LexItem
  | [] => []
  | c :: rest => ⟨c, pos⟩ :: load_state_value_go (pos.after [c]) rest

/-- `lexer.load_state_value` (lines 79-85): positions start at
`Position(0, 0)`. -/
def load_state_value (s : List Char) : List LexItem :=
  load_state_value_go ⟨0, 0⟩ s

/-- Lexer state emptiness: `Stream.empty` is `len(values) == 0`. -/
def lexEmp (st : List LexItem) : Bool := st.isEmpty

/-- Python `str()`/`repr()` of a `lexer._Item` dataclass, as interpolated
into `HeadRule`'s mismatch message (character escaping elided). -/
def lexItemRepr (i : LexItem) : String :=
  "_Item(value='" ++ String.singleton i.value ++ "', position=Position(line="
    ++ toString i.position.line ++ ", column=" ++ toString i.position.column ++ "))"

/-- Mismatch error of `lexer.Literal` via `HeadRule.apply`:
`f'{self} failed to match head {head}'`, where `Literal.__repr__` is the
literal character itself. It names both the expected literal and the
actual head. -/
def lexLiteralMismatch (v : Char) (i : LexItem) : Error :=
  .mk none (some (String.singleton v ++ " failed to match head " ++ lexItemRepr i)) []

/-- `lexer.Literal` (lines 156-167): match one character by equality
(`self.value == head.value`), producing a leaf result holding the matched
character. -/
def LexLiteral (v : Char) : Rule (List Char) (List LexItem) :=
  .base (headFun (fun i => v = i.value) (fun i => .mk none (some [i.value]) [])
    (lexLiteralMismatch v))

/-- Mismatch error of `lexer.Class`, whose `__repr__` is `[min-max]`. -/
def lexClassMismatch (mn mx : Char) (i : LexItem) : Error :=
  .mk none (some ("[" ++ String.singleton mn ++ "-" ++ String.singleton mx
    ++ "] failed to match head " ++ lexItemRepr i)) []

/-- `lexer.Class` (lines 144-153): match one character in the inclusive
range `min <= head.value <= max`. -/
def LexClass (mn mx : Char) : Rule (List Char) (List LexItem) :=
  .base (headFun (fun i => decide (mn ≤ i.value ∧ i.value ≤ mx))
    (fun i => .mk none (some [i.value]) []) (lexClassMismatch mn mx))

/-- `lexer.Not` (lines 170-188): fail on an empty state; succeed consuming
exactly one character iff the child fails; fail if the child matches. The
head-consuming primitive is lines 183-186. -/
def LexNot (c : Rule (List Char) (List LexItem)) : Rule (List Char) (List LexItem) :=
  .notr c (fun st =>
    match st with
    | [] => .error streamEmptyError
    | i :: t => .ok (.mk none (some [i.value]) [], t))

/-- Python `dict` assignment `d[k] = v`: replace in place if the key
exists, else append. -/
def dictSet {β : Type} (l : List (String × β)) (k : String) (v : β) : List (String × β) :=
  if l.any (fun p => p.1 = k) then l.map (fun p => if p.1 = k then (k, v) else p)
  else l ++ [(k, v)]

/-- `Lexer.__init__` (lexer.py lines 116-121): copy the token rules, then
add the synthesized `_root = UntilEmpty(Ref('_rules'))` and
`_rules = Or([Ref(name) for name in rules])`. -/
def mkLexerRules (rules : List (String × Rule (List Char) (List LexItem))) :
    List (String × Rule (List Char) (List LexItem)) :=
  dictSet (dictSet rules "_root" (.untilEmpty (.ref "_rules")))
    "_rules" (.or (rules.map (fun p => Rule.ref p.1)))

/-- `lexer.Lexer`: a `Processor` over character streams rooted at `_root`,
holding the synthesized rule registry. -/
structure Lexer : Type where
  rules : List (String × Rule (List Char) (List LexItem))

/-- Build a `Lexer` from its token rules, as `Lexer.__init__` does. -/
def mkLexer (rules : List (String × Rule (List Char) (List LexItem))) : Lexer :=
  ⟨mkLexerRules rules⟩

/-- The lexer's registry as a `Grammar` rooted at `_root`. -/
def Lexer.grammar (lx : Lexer) : Grammar (List Char) (List LexItem) :=
  ⟨"_root", lx.rules⟩

/-- `Lexer.token_rules`: every registry entry except the synthesized
`_root` and `_rules`. -/
def Lexer.token_rules (lx : Lexer) : List (String × Rule (List Char) (List LexItem)) :=
  lx.rules.filter (fun p => p.1 ≠ "_root" ∧ p.1 ≠ "_rules")

/-- `Lexer.token_types`: the names of the token rules. -/
def Lexer.token_types (lx : Lexer) : List String :=
  lx.token_rules.map (fun p => p.1)

/-- `lexer.Token`: a token type (the matching rule's name) and the
concatenated consumed text. -/
structure Token : Type where
  type : String
  value : List Char
deriving DecidableEq, Repr

/-- Python `name.startswith('_')`: the reserved internal-marker test. -/
def startsWithUnderscore (s : String) : Bool :=
  match s.data with
  | [] => false
  | c :: _ => c = '_'

mutual
/-- `Lexer._flatten_result_value` (lines 90-97): the node's own leaf value
followed by the flattened children, in order. -/
def flatten : Result (List Char) → List Char
  | .mk _ v cs => (match v with | some s => s | none => []) ++ flattenList cs

/-- List part of `Lexer._flatten_result_value`. -/
def flattenList : List (Result (List Char)) → List Char
  | [] => []
  | c :: cs => flatten c ++ flattenList cs
end

/-- `Lexer._token_from_result` (lines 99-102): the node's rule name (the
code asserts it is present) and its flattened value. -/
def token_from_result (r : Result (List Char)) : Token :=
  ⟨r.rule_name.getD "", flatten r⟩

/-- `Lexer._token_stream_from_result` (lines 104-114): collect every
result node named by a token type, outermost-first, turn each into a
`Token`, and drop tokens whose type starts with the internal marker
`_`. -/
def Lexer.token_stream_from_result (lx : Lexer) (r : Result (List Char)) : List Token :=
  (((whereR (rule_name_in lx.token_types) r).children).map token_from_result).filter
    (fun t => ¬ startsWithUnderscore t.type)

/-- `Lexer.apply` (lines 134-135): run the root rule over the positioned
character stream and extract the token stream from the result. -/
def Lexer.apply (lx : Lexer) (fuel : Nat) (input : List Char) :
    Option (Except Error (List Token)) :=
  match apply_rule_to_state lexEmp replaceAnnot lx.grammar fuel "_root" (load_state_value input) with
  | none => none
  | some (.error e) => some (.error e)
  | some (.ok (res, _)) => some (.ok (lx.token_stream_from_result res))

/-! ## The `StateValue.tail` slip, modelled faithfully (claim C1) -/

/-- A raised Python exception: either the core `Error` type or a
host-level exception such as `AttributeError`. -/
inductive PyExc : Type where
  | coreError (e : Error)
  | hostError (msg : String)
deriving Repr

/-- `lexer.StateValue.tail` (lexer.py lines 49-51) exactly as written:
`StateValue(super().tail._values)`. On an empty stream `Stream.tail`
raises the core `Error('stream empty')`; on a non-empty stream
`Stream.tail` returns a new `StateValue`, whose `_values` attribute does
not exist (the dataclass field of `Stream` is `values`), so Python raises
`AttributeError` — a non-`Error` host exception. -/
def lexStateValue_tail_faithful (st : List LexItem) : Except PyExc (List LexItem) :=
  match st with
  | [] => .error (.coreError streamEmptyError)
  | _ :: _ =>
    .error (.hostError "AttributeError: 'StateValue' object has no attribute '_values'")

/-- `stream_processor.HeadRule.apply` as executed by the lexer of the
current source: the state-consuming step `state.with_value(state.value.tail)`
goes through the faithful `StateValue.tail` above. -/
def lexHeadRule_apply_faithful (pred : LexItem → Bool) (mismatch : LexItem → Error)
    (st : List LexItem) : Except PyExc (Result (List Char) × List LexItem) :=
  match st with
  | [] => .error (.coreError streamEmptyError)
  | i :: _ =>
    if pred i then
      match lexStateValue_tail_faithful st with
      | .error exc => .error exc
      | .ok t => .ok (.mk none (some [i.value]) [], t)
    else .error (.coreError (mismatch i))

/-- The characters carried by a lexer state, in order. -/
def itemValues (st : List LexItem) : List Char := st.map (fun i => i.value)

/-- Rule trees built from the lexer's own closed set of variants
(spec section 3: `Rule` is a closed sum type): the leaf rules `Literal`,
`Class` and `Not` of lexer.py plus the generic combinators and `Ref`. -/
inductive IsLexRule : Rule (List Char) (List LexItem) → Prop where
  | literal (v : Char) : IsLexRule (LexLiteral v)
  | cls (mn mx : Char) : IsLexRule (LexClass mn mx)
  | notr {c : Rule (List Char) (List LexItem)} (hc : IsLexRule c) : IsLexRule (LexNot c)
  | ref (n : String) : IsLexRule (.ref n)
  | and {cs : List (Rule (List Char) (List LexItem))} (hcs : ∀ c ∈ cs, IsLexRule c) :
      IsLexRule (.and cs)
  | or {cs : List (Rule (List Char) (List LexItem))} (hcs : ∀ c ∈ cs, IsLexRule c) :
      IsLexRule (.or cs)
  | zeroOrMore {c : Rule (List Char) (List LexItem)} (hc : IsLexRule c) :
      IsLexRule (.zeroOrMore c)
  | oneOrMore {c : Rule (List Char) (List LexItem)} (hc : IsLexRule c) :
      IsLexRule (.oneOrMore c)
  | zeroOrOne {c : Rule (List Char) (List LexItem)} (hc : IsLexRule c) :
      IsLexRule (.zeroOrOne c)
  | untilEmpty {c : Rule (List Char) (List LexItem)} (hc : IsLexRule c) :
      IsLexRule (.untilEmpty c)

/-! ## Parser module

Modelled from the spec: the `parser` module that `loader.py` and
`loader_test.py` import (`parser.Parser(root_rule_name, rules, lexer)`
with rule constructors `Literal`, `Any`, `Ref`, `And`, `Or`, `ZeroOrMore`,
`OneOrMore`, `ZeroOrOne`, `UntilEmpty`) is not under `src/` — the
`parser.py` present there is an older incompatible draft. Per spec
section 4.5 the parser reuses the Processor machinery of sections 4.1-4.2
over a token stream, "with the leaf match primitive being: does this
token's type equal the expected literal", and per section 4.2 every
named-rule boundary is annotated so it is visible in the result tree; the
loader's tree walks require the annotation to wrap the rule's result as a
named parent node, and `Literal` results to carry the matched token,
named with the literal's token type. -/

/-- Token-stream emptiness. -/
def ptEmp (st : List Token) : Bool := st.isEmpty

/-- Modelled from the spec: the parser module's named-rule annotation
(spec section 4.2: every named-rule boundary crossed is visible in the
result tree). An anonymous result is named in place, exactly as
`processor.Result.with_rule_name` does; a result that already carries a
name (a `Literal` leaf) is wrapped as the child of a new named node, so
both names stay visible — the loader's `where_one` chains
(`parser_rule_decl_name` then `id`, `lexer_literal` then `str`) require
the leaf's own name to survive, and `load_special`'s
`where_one('special_value').get_value()` requires an annotated `Any`
result to keep its value. -/
def wrapAnnot : Annot Token := fun n r =>
  match r.rule_name with
  | none => r.with_rule_name n
  | some _ => .mk (some n) none [r]

/-- Modelled from the spec: `parser.Literal(name)` — match one token
whose type equals `name`, producing a leaf named `name` carrying the
matched token. -/
def PLiteral (n : String) : Rule Token (List Token) :=
  .base (headFun (fun t => t.type = n) (fun t => .mk (some n) (some t) [])
    (fun t => .mk none (some ("token mismatch " ++ n ++ " " ++ t.type)) []))

/-- Modelled from the spec: `parser.Any()` — match any one token,
producing an anonymous leaf carrying it (used for `special_value` in the
loader's bootstrap grammar). -/
def PAny : Rule Token (List Token) :=
  .base (headFun (fun _ => true) (fun t => .mk none (some t) [])
    (fun _ => .mk none (some "any mismatch") []))

/-- Modelled from the spec: `parser.Parser` — a named grammar bound to a
lexer (spec section 4.5). -/
structure Parser : Type where
  root_rule_name : String
  rules : List (String × Rule Token (List Token))
  lexer : Lexer

/-- Look up a parser rule by name. -/
def Parser.rule (p : Parser) (n : String) : Option (Rule Token (List Token)) :=
  (p.rules.find? (fun q => q.1 = n)).map (fun q => q.2)

/-- Modelled from the spec: `Parser.apply(text)` — lex the text, then
apply the grammar's root rule to the token stream with the Processor
machinery, returning the annotated root result. -/
def Parser.apply (p : Parser) (fuel : Nat) (input : List Char) :
    Option (Except Error (Result Token)) :=
  match p.lexer.apply fuel input with
  | none => none
  | some (.error e) => some (.error e)
  | some (.ok toks) =>
    match apply_rule_to_state ptEmp wrapAnnot ⟨p.root_rule_name, p.rules⟩ fuel
        p.root_rule_name toks with
    | none => none
    | some (.error e) => some (.error e)
    | some (.ok (res, _)) => some (.ok res)

/-! ## Loader (`loader.py`) -/

/-- `Result.where_one` with the failure collapsed to `none` (the loader's
walks only propagate failure). -/
def whereOne? {α : Type} (p : Result α → Bool) (r : Result α) : Option (Result α) :=
  match (whereR p r).children with
  | [x] => some x
  | _ => none

/-- The operator characters of the lexer-rule-expression DSL,
`'()[-]+?*!^|\'` in source order. -/
def loaderOperators : List Char :=
  ['(', ')', '[', '-', ']', '+', '?', '*', '!', '^', '|', '\\']

/-- `load_lexer_rule`'s bootstrap lexer: one `Literal` per operator
character keyed by that character, plus `literal`, a `Not` over all the
operators. -/
def lexerLexer : Lexer :=
  mkLexer ((loaderOperators.map (fun c => (String.singleton c, LexLiteral c)))
    ++ [("literal", LexNot (.or (loaderOperators.map (fun c => LexLiteral c))))])

/-- `load_lexer_rule`'s bootstrap parser grammar (loader.py lines
14-89). -/
def lexerParser : Parser :=
  ⟨"root",
    [("root", .untilEmpty (.ref "rule")),
     ("rule", .or [.ref "operation", .ref "operand"]),
     ("operation", .or [.ref "zero_or_more", .ref "one_or_more", .ref "zero_or_one",
        .ref "until_empty", .ref "not"]),
     ("and", .and [PLiteral "(", .oneOrMore (.ref "rule"), PLiteral ")"]),
     ("zero_or_more", .and [.ref "operand", PLiteral "*"]),
     ("one_or_more", .and [.ref "operand", PLiteral "+"]),
     ("zero_or_one", .and [.ref "operand", PLiteral "?"]),
     ("until_empty", .and [.ref "operand", PLiteral "!"]),
     ("not", .and [PLiteral "^", .ref "unary_operand"]),
     ("operand", .or [.ref "and", .ref "or", .ref "unary_operand"]),
     ("unary_operand", .or [PLiteral "literal", .ref "class", .ref "special"]),
     ("class", .and [PLiteral "[", PLiteral "literal", PLiteral "-",
        PLiteral "literal", PLiteral "]"]),
     ("or", .and [PLiteral "(", .ref "rule",
        .oneOrMore (.and [PLiteral "|", .ref "rule"]), PLiteral ")"]),
     ("special", .and [PLiteral "\\", .ref "special_value"]),
     ("special_value", PAny)],
    lexerLexer⟩

/-- `load_literal` (loader.py lines 91-93): the matched token's one
character as a `Literal`. -/
def loadLexLiteral (rr : Result Token) : Option (Rule (List Char) (List LexItem)) :=
  match rr.value with
  | some tok =>
    match tok.value with
    | [c] => some (LexLiteral c)
    | _ => none
  | none => none

/-- `load_class` (loader.py lines 107-110): the two `literal` children as
range bounds. -/
def loadLexClass (rr : Result Token) : Option (Rule (List Char) (List LexItem)) :=
  match (whereR (rule_name_is "literal") rr).children with
  | [mn, mx] =>
    match mn.value, mx.value with
    | some tmn, some tmx =>
      match tmn.value, tmx.value with
      | [cmn], [cmx] => some (LexClass cmn cmx)
      | _, _ => none
    | _, _ => none
  | _ => none

/-- `load_special` (loader.py lines 112-121): the escape map `\n`, `\w`,
default literal passthrough. -/
def loadLexSpecial (rr : Result Token) : Option (Rule (List Char) (List LexItem)) :=
  match whereOne? (rule_name_is "special_value") rr with
  | none => none
  | some sv =>
    match sv.value with
    | none => none
    | some tok =>
      match tok.value with
      | ['n'] => some (LexLiteral '\n')
      | ['w'] => some (.or [LexLiteral ' ', LexLiteral '\n', LexLiteral '\t'])
      | [c] => some (LexLiteral c)
      | _ => none

/-- The dispatch keys of `load_lexer_rule`'s `rule_funcs`, in dict
order. -/
def lexRuleFuncKeys : List String :=
  ["literal", "and", "or", "zero_or_more", "one_or_more", "zero_or_one",
   "until_empty", "not", "class", "special"]

/-- `load_rule`/`rule_funcs` of `load_lexer_rule` (loader.py lines
95-141): find the one rule-kind node and dispatch on its name, recursing
into sub-rules. `fuel` bounds the recursion depth (the Python walk is
unbounded). -/
def loadLexRule : Nat → Result Token → Option (Rule (List Char) (List LexItem))
  | 0, _ => none
  | fuel + 1, r =>
    match whereOne? (rule_name_in lexRuleFuncKeys) r with
    | none => none
    | some rr =>
      match rr.rule_name with
      | some "literal" => loadLexLiteral rr
      | some "and" =>
        ((whereR (rule_name_is "rule") rr).children.mapM (loadLexRule fuel)).map
          (fun cs => Rule.and cs)
      | some "or" =>
        ((whereR (rule_name_is "rule") rr).children.mapM (loadLexRule fuel)).map
          (fun cs => Rule.or cs)
      | some "zero_or_more" =>
        match whereOne? (rule_name_in ["operand", "unary_operand"]) rr with
        | none => none
        | some op => (loadLexRule fuel op).map (fun c => Rule.zeroOrMore c)
      | some "one_or_more" =>
        match whereOne? (rule_name_in ["operand", "unary_operand"]) rr with
        | none => none
        | some op => (loadLexRule fuel op).map (fun c => Rule.oneOrMore c)
      | some "zero_or_one" =>
        match whereOne? (rule_name_in ["operand", "unary_operand"]) rr with
        | none => none
        | some op => (loadLexRule fuel op).map (fun c => Rule.zeroOrOne c)
      | some "until_empty" =>
        match whereOne? (rule_name_in ["operand", "unary_operand"]) rr with
        | none => none
        | some op => (loadLexRule fuel op).map (fun c => Rule.untilEmpty c)
      | some "not" =>
        match whereOne? (rule_name_in ["operand", "unary_operand"]) rr with
        | none => none
        | some op => (loadLexRule fuel op).map (fun c => LexNot c)
      | some "class" => loadLexClass rr
      | some "special" => loadLexSpecial rr
      | _ => none

/-- `load_and` applied to a whole parse (loader.py lines 95-99 and
142): collect the `rule` children and sequence them. -/
def loadLexAnd (fuel : Nat) (r : Result Token) :
    Option (Rule (List Char) (List LexItem)) :=
  ((whereR (rule_name_is "rule") r).children.mapM (loadLexRule fuel)).map
    (fun cs => Rule.and cs)

/-- `load_lexer_rule` (loader.py lines 5-142): parse the rule expression
with the bootstrap lexer+parser, then fold the result tree into a lexer
rule. -/
def load_lexer_rule (fuel : Nat) (input : List Char) :
    Option (Rule (List Char) (List LexItem)) :=
  match lexerParser.apply fuel input with
  | some (.ok res) => loadLexAnd fuel res
  | _ => none

/-- `load_lexer` (loader.py lines 145-146): compile each rule expression
and build a lexer. -/
def load_lexer (fuel : Nat) (rules : List (String × List Char)) : Option Lexer :=
  (rules.mapM (fun p => (load_lexer_rule fuel p.2).map (fun r => (p.1, r)))).map mkLexer

/-- Python `value.strip('"')`: remove every leading and trailing
quote. -/
def stripQuotes (s : List Char) : List Char :=
  ((s.dropWhile (fun c => c = '"')).reverse.dropWhile (fun c => c = '"')).reverse

/-- The mutable compilation state of `load_parser` (loader.py lines
255-257): the ordered lexer-rule dict, the parser-rule dict and the root
rule name (the first declared parser rule). -/
structure LoadState : Type where
  lexer_rules : List (String × Rule (List Char) (List LexItem))
  parser_rules : List (String × Rule Token (List Token))
  root_rule_name : Option String

/-- `load_lexer_literal` (loader.py lines 259-268): strip the quotes,
compile the anonymous token rule if new (inserted at the front of the
ordered dict by `move_to_end(value, False)`), and produce a token-literal
match. The assert comparing an existing entry against a recompilation is
not modelled (rule trees holding match functions have no decidable
equality here). -/
def load_lexer_literal (fuel : Nat) (st : LoadState) (rr : Result Token) :
    Option (Rule Token (List Token) × LoadState) :=
  match whereOne? (rule_name_is "str") rr with
  | none => none
  | some sn =>
    match sn.value with
    | none => none
    | some tok =>
      let vs : String := String.mk (stripQuotes tok.value)
      if st.lexer_rules.any (fun p => p.1 = vs) then some (PLiteral vs, st)
      else
        match load_lexer_rule fuel (stripQuotes tok.value) with
        | none => none
        | some r =>
          some (PLiteral vs,
            ⟨(vs, r) :: st.lexer_rules, st.parser_rules, st.root_rule_name⟩)

/-- `load_ref` (loader.py lines 286-292): an identifier naming a declared
lexer rule compiles to a token-literal match; an unknown identifier
compiles to a forward `Ref`. -/
def load_ref (st : LoadState) (rr : Result Token) : Option (Rule Token (List Token)) :=
  match whereOne? (rule_name_is "id") rr with
  | none => none
  | some idn =>
    match idn.value with
    | none => none
    | some tok =>
      let rule_name : String := String.mk tok.value
      if st.lexer_rules.any (fun p => p.1 = rule_name) then some (PLiteral rule_name)
      else some (.ref rule_name)

/-- Left-to-right loading of a list of sub-rules, threading the
compilation state (the Python list comprehension over a closure mutating
`lexer_rules`). -/
def loadPListGo (loadR : LoadState → Result Token → Option (Rule Token (List Token) × LoadState)) :
    LoadState → List (Result Token) → Option (List (Rule Token (List Token)) × LoadState)
  | st, [] => some ([], st)
  | st, r :: rs =>
    match loadR st r with
    | none => none
    | some (ru, st') =>
      match loadPListGo loadR st' rs with
      | none => none
      | some (rus, st'') => some (ru :: rus, st'')

/-- The dispatch keys of `load_parser`'s `load_rule` (loader.py lines
294-308), in dict order. -/
def pRuleLoaderKeys : List String :=
  ["ref", "and", "or", "zero_or_more", "one_or_more", "zero_or_one",
   "until_empty", "lexer_literal"]

/-- `load_rule` of `load_parser` (loader.py lines 270-308): find the one
rule-kind node and dispatch, recursing into sub-rules and threading the
compilation state. -/
def loadPRule : Nat → LoadState → Result Token → Option (Rule Token (List Token) × LoadState)
  | 0, _, _ => none
  | fuel + 1, st, r =>
    match whereOne? (rule_name_in pRuleLoaderKeys) r with
    | none => none
    | some rr =>
      match rr.rule_name with
      | some "ref" => (load_ref st rr).map (fun ru => (ru, st))
      | some "and" =>
        match loadPListGo (loadPRule fuel) st (whereR (rule_name_is "operand") rr).children with
        | none => none
        | some (cs, st') => some (.and cs, st')
      | some "or" =>
        match loadPListGo (loadPRule fuel) st (whereR (rule_name_is "operand") rr).children with
        | none => none
        | some (cs, st') => some (.or cs, st')
      | some "zero_or_more" =>
        match whereOne? (rule_name_is "unary_operand") rr with
        | none => none
        | some op => (loadPRule fuel st op).map (fun q => (Rule.zeroOrMore q.1, q.2))
      | some "one_or_more" =>
        match whereOne? (rule_name_is "unary_operand") rr with
        | none => none
        | some op => (loadPRule fuel st op).map (fun q => (Rule.oneOrMore q.1, q.2))
      | some "zero_or_one" =>
        match whereOne? (rule_name_is "unary_operand") rr with
        | none => none
        | some op => (loadPRule fuel st op).map (fun q => (Rule.zeroOrOne q.1, q.2))
      | some "until_empty" =>
        match whereOne? (rule_name_is "unary_operand") rr with
        | none => none
        | some op => (loadPRule fuel st op).map (fun q => (Rule.untilEmpty q.1, q.2))
      | some "lexer_literal" => load_lexer_literal fuel st rr
      | _ => none

/-- `load_parser_rule_decl` (loader.py lines 310-322): read the declared
name, require it fresh, compile the rule body, record it, and make the
first declared parser rule the root. -/
def load_parser_rule_decl (fuel : Nat) (st : LoadState) (rr : Result Token) :
    Option LoadState :=
  match whereOne? (rule_name_is "parser_rule_decl_name") rr with
  | none => none
  | some pn =>
    match whereOne? (rule_name_is "id") pn with
    | none => none
    | some idn =>
      match idn.value with
      | none => none
      | some tok =>
        let name : String := String.mk tok.value
        if st.lexer_rules.any (fun p => p.1 = name)
            ∨ st.parser_rules.any (fun p => p.1 = name) then none
        else
          match whereOne? (rule_name_is "rule") rr with
          | none => none
          | some rl =>
            match loadPRule fuel st rl with
            | none => none
            | some (ru, st') =>
              some ⟨st'.lexer_rules, st'.parser_rules ++ [(name, ru)],
                match st'.root_rule_name with
                | none => some name
                | some root => some root⟩

/-- `load_lexer_rule_decl` (loader.py lines 324-331): read the declared
name, require it fresh, compile the quoted rule expression and append it
to the ordered lexer-rule dict. -/
def load_lexer_rule_decl (fuel : Nat) (st : LoadState) (rr : Result Token) :
    Option LoadState :=
  match whereOne? (rule_name_is "id") rr with
  | none => none
  | some idn =>
    match idn.value with
    | none => none
    | some tok =>
      let name : String := String.mk tok.value
      if st.lexer_rules.any (fun p => p.1 = name)
          ∨ st.parser_rules.any (fun p => p.1 = name) then none
      else
        match whereOne? (rule_name_is "str") rr with
        | none => none
        | some sn =>
          match sn.value with
          | none => none
          | some stok =>
            match load_lexer_rule fuel (stripQuotes stok.value) with
            | none => none
            | some r =>
              some ⟨st.lexer_rules ++ [(name, r)], st.parser_rules, st.root_rule_name⟩

/-- `load_rule_decl` (loader.py lines 333-341): dispatch a declaration to
the lexer- or parser-rule loader. -/
def load_rule_decl (fuel : Nat) (st : LoadState) (rr : Result Token) :
    Option LoadState :=
  match whereOne? (rule_name_in ["lexer_rule_decl", "parser_rule_decl"]) rr with
  | none => none
  | some dr =>
    match dr.rule_name with
    | some "lexer_rule_decl" => load_lexer_rule_decl fuel st dr
    | some "parser_rule_decl" => load_parser_rule_decl fuel st dr
    | _ => none

/-- The declaration loop of `load_parser` (loader.py lines 343-348). -/
def loadDeclsGo (step : LoadState → Result Token → Option LoadState) :
    LoadState → List (Result Token) → Option LoadState
  | st, [] => some st
  | st, r :: rs =>
    match step st r with
    | none => none
    | some st' => loadDeclsGo step st' rs

/-- The token rules of `load_parser`'s lexer (loader.py lines 151-165),
in dict order, each rule body a lexer-rule-expression string. -/
def parserLexerSpecs : List (String × List Char) :=
  [("_ws", ['\\', 'w', '+']),
   ("=", ['=']),
   (";", [';']),
   ("->", ['\\', '-', '>']),
   ("|", ['\\', '|']),
   ("(", ['\\', '(']),
   (")", ['\\', ')']),
   ("*", ['\\', '*']),
   ("+", ['\\', '+']),
   ("?", ['\\', '?']),
   ("!", ['\\', '!']),
   ("id", ['(', '_', '|', '[', 'a', '-', 'z', ']', '|', '[', 'A', '-', 'Z', ']',
     '|', '[', '0', '-', '9', ']', ')', '+']),
   ("str", ['"', '(', '^', '"', ')', '+', '"'])]

/-- The grammar of `load_parser`'s bootstrap parser (loader.py lines
170-248), in dict order. -/
def parserParserGrammar : List (String × Rule Token (List Token)) :=
  [("root", .untilEmpty (.ref "line")),
   ("line", .and [.ref "rule_decl", PLiteral ";"]),
   ("rule_decl", .or [.ref "lexer_rule_decl", .ref "parser_rule_decl"]),
   ("lexer_rule_decl", .and [PLiteral "id", PLiteral "=", PLiteral "str"]),
   ("parser_rule_decl", .and [.ref "parser_rule_decl_name", PLiteral "->", .ref "rule"]),
   ("parser_rule_decl_name", PLiteral "id"),
   ("rule", .or [.ref "or", .ref "and", .ref "operand"]),
   ("ref", PLiteral "id"),
   ("and", .and [.ref "operand", .oneOrMore (.ref "operand")]),
   ("operand", .or [.ref "unary_operation", .ref "unary_operand"]),
   ("unary_operand", .or [.ref "ref", .ref "paren_rule", .ref "lexer_literal"]),
   ("or", .and [.ref "operand", .oneOrMore (.and [PLiteral "|", .ref "operand"])]),
   ("paren_rule", .and [PLiteral "(", .ref "rule", PLiteral ")"]),
   ("unary_operation", .or [.ref "zero_or_more", .ref "one_or_more",
      .ref "zero_or_one", .ref "until_empty"]),
   ("zero_or_more", .and [.ref "unary_operand", PLiteral "*"]),
   ("one_or_more", .and [.ref "unary_operand", PLiteral "+"]),
   ("zero_or_one", .and [.ref "unary_operand", PLiteral "?"]),
   ("until_empty", .and [.ref "unary_operand", PLiteral "!"]),
   ("lexer_literal", PLiteral "str")]

/-- `load_parser` (loader.py lines 149-352): build the DSL's lexer and
parser, parse the declarations, fold them into the compilation state, and
return the declared parser rooted at the first declared parser rule. -/
def loadParser (fuel : Nat) (input : List Char) : Option Parser :=
  match load_lexer fuel parserLexerSpecs with
  | none => none
  | some plex =>
    match (Parser.mk "root" parserParserGrammar plex).apply fuel input with
    | some (.ok res) =>
      match loadDeclsGo (load_rule_decl fuel) ⟨[], [], none⟩
          ((whereR (rule_name_is "rule_decl") res).children) with
      | none => none
      | some st =>
        match st.root_rule_name with
        | none => none
        | some root => some ⟨root, st.parser_rules, mkLexer st.lexer_rules⟩
    | _ => none

/-- Shape of one repetition result of the lexer's synthesized root
`UntilEmpty(Ref('_rules'))`: the `Ref` wrapper around the annotated
`_rules` `Or`, itself wrapping one inner `Ref` whose annotated child
carries a token-type name. -/
def ShapedIter (ns : List String) (r : Result (List Char)) : Prop :=
  ∃ n v cs, n ∈ ns ∧
    r = .mk none none
      [.mk (some "_rules") none [.mk none none [.mk (some n) v cs]]]

/-- Concatenation of the values of a token stream, in order. -/
def tokensText (ts : List Token) : List Char :=
  (ts.map Token.value).flatten

/-! ## Concrete rules for witnesses (mirroring `processor_test.py`'s
`_IntMatcherLiteral` over integer streams) -/

/-- Integer-stream emptiness. -/
def demoEmp (st : List Nat) : Bool := st.isEmpty

/-- `processor_test._IntMatcherLiteral`: match one integer by equality. -/
def demoLit (v : Nat) : Rule Nat (List Nat) :=
  .base (fun st =>
    match st with
    | [] => .error (.mk none (some "state empty") [])
    | h :: t =>
      if h ≠ v then
        .error (.mk none (some ("literal mismatch expected " ++ toString v ++ " got "
          ++ toString h)) [])
      else .ok (.mk none (some h) [], t))

/-- A one-rule registry for the witnesses. -/
def demoG : Grammar Nat (List Nat) := ⟨"a", [("a", demoLit 1)]⟩

/-- A rule that always fails with a fixed error. -/
def boomErr : Error := .mk none (some "boom") []

/-- Base rule raising `boomErr` at every state. -/
def boomRule : Rule Nat (List Nat) := .base (fun _ => .error boomErr)

/-- A rule engineered to succeed with zero width: it returns the state it
was applied to. -/
def demoZeroWidth : Rule Nat (List Nat) := .base (fun st => .ok (.mk none none [], st))

section GenericLemmas

variable {α σ : Type}

/-- `And.apply` over an appended child list: run the first part, then
continue with its collected results. -/
theorem andGo_append (A : Rule α σ → σ → Option (PRes α σ)) (cs1 cs2 : List (Rule α σ))
    (st : σ) (acc : List (Result α)) :
    andGo A (cs1 ++ cs2) st acc =
      match andGo A cs1 st acc with
      | none => none
      | some (.error e) => some (.error e)
      | some (.ok (r, st1)) => andGo A cs2 st1 r.children := by
  induction cs1 generalizing st acc with
  | nil => simp [andGo, Result.children]
  | cons c cs1 ih =>
    simp only [List.cons_append, andGo]
    cases A c st with
    | none => rfl
    | some res =>
      cases res with
      | error e => rfl
      | ok p => obtain ⟨res, st'⟩ := p; exact ih st' (acc ++ [res])

/-- `Or.apply` when every child fails: the accumulated errors of all
children are raised together. -/
theorem orGo_allfail (A : Rule α σ → σ → Option (PRes α σ)) {cs : List (Rule α σ)}
    {errs : List Error} (st : σ)
    (h : List.Forall₂ (fun c e => A c st = some (.error e)) cs errs) :
    ∀ errs0, orGo A cs st errs0 = some (.error (.mk none none (errs0 ++ errs))) := by
  induction h with
  | nil => intro errs0; simp [orGo]
  | cons hce _ ih =>
    intro errs0
    simp only [orGo, hce]
    rw [ih]
    simp

/-- `Or.apply` when a prefix of children fails and the next child
succeeds: the success is returned wrapped, untouched by the accumulated
errors and by any later children. -/
theorem orGo_first_success (A : Rule α σ → σ → Option (PRes α σ)) {cs1 : List (Rule α σ)}
    (c : Rule α σ) (cs2 : List (Rule α σ)) {st : σ} {p : Result α × σ}
    (hfail : ∀ c' ∈ cs1, ∃ e, A c' st = some (.error e))
    (hok : A c st = some (.ok p)) :
    ∀ errs0, orGo A (cs1 ++ c :: cs2) st errs0 = some (.ok (as_child_result p)) := by
  induction cs1 with
  | nil => intro errs0; simp [orGo, hok]
  | cons c' cs1 ih =>
    intro errs0
    obtain ⟨e, he⟩ := hfail c' (by simp)
    simp only [List.cons_append, orGo, he]
    exact ih (fun x hx => hfail x (by simp [hx])) (errs0 ++ [e])

/-- A run of successful, advancing repetitions of `A` from one state to
another over a non-empty suffix of the input, ending at an empty state:
the hypothesis shape of `UntilEmpty`'s success case. -/
inductive UEChain (emp : σ → Bool) (A : σ → Option (PRes α σ)) : σ → List (Result α) → σ → Prop where
  | nil (st : σ) (h : emp st = true) : UEChain emp A st [] st
  | cons (st : σ) (res : Result α) (st1 : σ) (rs : List (Result α)) (st' : σ)
      (hne : emp st = false) (hap : A st = some (.ok (res, st1))) (hadv : st1 ≠ st)
      (htail : UEChain emp A st1 rs st') : UEChain emp A st (res :: rs) st'

/-- `UntilEmpty.apply`'s loop follows a chain of advancing repetitions and
collects their results in order. -/
theorem ueGo_of_chain [DecidableEq σ] {emp : σ → Bool} {A : σ → Option (PRes α σ)} {st : σ}
    {rs : List (Result α)} {st' : σ} (h : UEChain emp A st rs st') :
    ∀ lf, rs.length < lf → ∀ acc,
      ueGo emp A lf st acc = some (.ok (.mk none none (acc ++ rs), st')) := by
  induction h with
  | nil st h =>
    intro lf hlf acc
    obtain ⟨lf', rfl⟩ := Nat.exists_eq_add_of_lt hlf
    simp [ueGo, h]
  | cons st res st1 rs st' hne hap hadv htail ih =>
    intro lf hlf acc
    obtain ⟨lf', rfl⟩ : ∃ lf', lf = lf' + 1 :=
      ⟨lf - 1, by omega⟩
    simp only [ueGo, hne, Bool.false_eq_true, if_false, hap, hadv, if_neg hadv]
    rw [ih lf' (by simpa using hlf) (acc ++ [res])]
    simp

end GenericLemmas

/-! ## Claim C1 -/

/-- Claim C1 (code-bug evidence): applying the lexer rule `Literal('a')`
to the non-empty character stream built from input `"a"` matches the head
and then consumes via `StateValue.tail`, which raises the host
`AttributeError` — not a value of the core `Error` type as the claim
requires. -/
theorem pysh_c1_lexer_literal_raises_host_exception :
    lexHeadRule_apply_faithful (fun i => 'a' = i.value) (lexLiteralMismatch 'a')
      (load_state_value ['a'])
    = .error (.hostError "AttributeError: 'StateValue' object has no attribute '_values'") :=
  rfl

/-! ## Claim C2 -/

/-- Claim C2 (counterexample): for the `And` of a matching literal and a
failing rule, the raised failure is the failing child's error itself —
its `children` list is empty, so no error whose children are exactly
`[boomErr]` is raised, contradicting the claimed wrapping. -/
theorem pysh_c2_counterexample :
    runRule demoEmp replaceAnnot demoG 3 (.and [demoLit 2, boomRule]) [2, 5]
      = some (.error boomErr)
    ∧ ∀ e : Error,
        runRule demoEmp replaceAnnot demoG 3 (.and [demoLit 2, boomRule]) [2, 5]
          = some (.error e) → e.children ≠ [boomErr] := by
  refine ⟨rfl, ?_⟩
  intro e h
  rw [show runRule demoEmp replaceAnnot demoG 3 (.and [demoLit 2, boomRule]) [2, 5]
    = some (.error boomErr) from rfl] at h
  simp only [Option.some.injEq] at h
  cases h
  simp [boomErr, Error.children]

/-- Claim C2 (amended): if the children before some child all succeed,
threading the state, and that child's application fails, the whole `And`
fails and the failure it raises is the failing child's error, propagated
unchanged. -/
theorem pysh_c2_and_propagates_child_error {α σ : Type} [DecidableEq σ]
    (emp : σ → Bool) (annot : Annot α) (g : Grammar α σ) (f : Nat)
    (cs1 : List (Rule α σ)) (c : Rule α σ) (cs2 : List (Rule α σ)) (st : σ)
    (r1 : Result α) (st1 : σ) (e : Error)
    (h1 : andGo (runRule emp annot g f) cs1 st [] = some (.ok (r1, st1)))
    (h2 : runRule emp annot g f c st1 = some (.error e)) :
    runRule emp annot g (f + 1) (.and (cs1 ++ c :: cs2)) st = some (.error e) := by
  simp only [runRule]
  rw [andGo_append, h1]
  simp only [andGo, h2]

/-- Witness for the amended C2 at a concrete input. -/
theorem pysh_c2_witness :
    andGo (runRule demoEmp replaceAnnot demoG 2) [demoLit 2] [2, 5] []
        = some (.ok (.mk none none [.mk none (some 2) []], [5]))
    ∧ runRule demoEmp replaceAnnot demoG 2 boomRule [5] = some (.error boomErr)
    ∧ runRule demoEmp replaceAnnot demoG 3 (.and ([demoLit 2] ++ boomRule :: []))
        [2, 5] = some (.error boomErr) :=
  ⟨rfl, rfl,
    pysh_c2_and_propagates_child_error demoEmp replaceAnnot demoG 2 [demoLit 2]
      boomRule [] [2, 5] (.mk none none [.mk none (some 2) []]) [5] boomErr rfl rfl⟩

/-! ## Claim C3 -/

/-- Claim C3: when every child of an `Or` fails, the `Or` raises an error
whose children are the errors of all of its children, in declaration
order. -/
theorem pysh_c3_or_error_collects_all {α σ : Type} [DecidableEq σ]
    (emp : σ → Bool) (annot : Annot α) (g : Grammar α σ) (f : Nat)
    {cs : List (Rule α σ)} {errs : List Error} (st : σ)
    (h : List.Forall₂ (fun c e => runRule emp annot g f c st = some (.error e)) cs errs) :
    runRule emp annot g (f + 1) (.or cs) st = some (.error (.mk none none errs)) := by
  simp only [runRule]
  simpa using orGo_allfail (runRule emp annot g f) st h []

/-- Witness for C3: both literals fail on `[9]` and the `Or` reports both
errors, in order. -/
theorem pysh_c3_witness :
    runRule demoEmp replaceAnnot demoG 5 (demoLit 1) [9]
        = some (.error (.mk none (some "literal mismatch expected 1 got 9") []))
    ∧ runRule demoEmp replaceAnnot demoG 5 (demoLit 2) [9]
        = some (.error (.mk none (some "literal mismatch expected 2 got 9") []))
    ∧ runRule demoEmp replaceAnnot demoG 6 (.or [demoLit 1, demoLit 2]) [9]
        = some (.error (.mk none none
            [.mk none (some "literal mismatch expected 1 got 9") [],
             .mk none (some "literal mismatch expected 2 got 9") []])) :=
  ⟨rfl, rfl,
    pysh_c3_or_error_collects_all demoEmp replaceAnnot demoG 5 [9]
      (List.Forall₂.cons rfl (List.Forall₂.cons rfl List.Forall₂.nil))⟩

/-! ## Claim C4 -/

/-- Claim C4: `Or` tries children in declaration order; once every earlier
child has failed and a child succeeds, its result is returned wrapped as
the sole child of the `Or`-level result with that child's state, and the
children after it do not influence the outcome. -/
theorem pysh_c4_or_first_success {α σ : Type} [DecidableEq σ]
    (emp : σ → Bool) (annot : Annot α) (g : Grammar α σ) (f : Nat)
    (cs1 : List (Rule α σ)) (c : Rule α σ) (cs2 : List (Rule α σ)) (st : σ)
    (res : Result α) (st' : σ)
    (hfail : ∀ c' ∈ cs1, ∃ e, runRule emp annot g f c' st = some (.error e))
    (hok : runRule emp annot g f c st = some (.ok (res, st'))) :
    runRule emp annot g (f + 1) (.or (cs1 ++ c :: cs2)) st
      = some (.ok (.mk none none [res], st')) := by
  simp only [runRule]
  simpa [as_child_result] using
    orGo_first_success (runRule emp annot g f) c cs2 hfail hok []

/-- Witness for C4 at a concrete input: the first literal fails on `[2, 7]`,
the second succeeds, the third is never relevant. -/
theorem pysh_c4_witness :
    runRule demoEmp replaceAnnot demoG 5 (demoLit 2) [2, 7]
        = some (.ok (.mk none (some 2) [], [7]))
    ∧ runRule demoEmp replaceAnnot demoG 6 (.or ([demoLit 1] ++ demoLit 2 :: [demoLit 3]))
        [2, 7] = some (.ok (.mk none none [.mk none (some 2) []], [7])) := by
  refine ⟨rfl, ?_⟩
  exact pysh_c4_or_first_success demoEmp replaceAnnot demoG 5 [demoLit 1] (demoLit 2)
    [demoLit 3] [2, 7] _ _
    (by intro c' h; simp only [List.mem_singleton] at h; subst h; exact ⟨_, rfl⟩) rfl

/-! ## Claim C5 -/

/-- Claim C5: `UntilEmpty` raises the explicit non-advancement error when
a repetition succeeds but returns the state it was applied to while the
state is non-empty; otherwise (a chain of advancing successful
repetitions reaching an empty state) it succeeds with all repetition
results in order. -/
theorem pysh_c5_until_empty_guard_and_success :
    (∀ {α σ : Type} [DecidableEq σ] (emp : σ → Bool) (annot : Annot α) (g : Grammar α σ)
      (f : Nat) (c : Rule α σ) (st : σ) (res : Result α),
      emp st = false → runRule emp annot g f c st = some (.ok (res, st)) →
      runRule emp annot g (f + 1) (.untilEmpty c) st = some (.error notAdvancingError))
    ∧ (∀ {α σ : Type} [DecidableEq σ] (emp : σ → Bool) (annot : Annot α) (g : Grammar α σ)
      (f : Nat) (c : Rule α σ) (st : σ) (rs : List (Result α)) (st' : σ),
      UEChain emp (runRule emp annot g f c) st rs st' → rs.length ≤ f →
      runRule emp annot g (f + 1) (.untilEmpty c) st
        = some (.ok (.mk none none rs, st'))) := by
  constructor
  · intro α σ _ emp annot g f c st res hemp hap
    simp [runRule, ueGo, hemp, hap]
  · intro α σ _ emp annot g f c st rs st' hchain hlen
    simp only [runRule]
    simpa using ueGo_of_chain hchain (f + 1) (by omega) []

/-- Witness for C5: the zero-width rule triggers the non-advancement
error on `[1]`; the advancing literal consumes `[1]` to emptiness. -/
theorem pysh_c5_witness :
    demoEmp [1] = false
    ∧ runRule demoEmp replaceAnnot demoG 2 demoZeroWidth [1]
        = some (.ok (.mk none none [], [1]))
    ∧ runRule demoEmp replaceAnnot demoG 3 (.untilEmpty demoZeroWidth) [1]
        = some (.error notAdvancingError)
    ∧ runRule demoEmp replaceAnnot demoG 3 (.untilEmpty (demoLit 1)) [1]
        = some (.ok (.mk none none [.mk none (some 1) []], [])) := by
  refine ⟨rfl, rfl, ?_, ?_⟩
  · exact pysh_c5_until_empty_guard_and_success.1 demoEmp replaceAnnot demoG 2
      demoZeroWidth [1] (.mk none none []) rfl rfl
  · exact pysh_c5_until_empty_guard_and_success.2 demoEmp replaceAnnot demoG 2
      (demoLit 1) [1] [.mk none (some 1) []] []
      (UEChain.cons [1] (.mk none (some 1) []) [] [] [] rfl rfl (by simp)
        (UEChain.nil [] rfl))
      (by simp)

/-! ## Claim C7 -/

/-- Claim C7: `HeadRule` (Literal/Predicate) applied to an empty state
fails with the stream-empty error; applied to a state whose head fails
the predicate it fails with the mismatch message built from the rule and
the actual head (for the lexer `Literal`, naming the expected character
and the actual item); applied to a state whose head satisfies the
predicate it consumes exactly one item and returns a leaf result whose
value is the matched item. -/
theorem pysh_c7_head_rule_behaviour :
    (∀ {ι α : Type} [DecidableEq ι] (pred : ι → Bool) (mkRes : ι → Result α)
      (mismatch : ι → Error) (emp : List ι → Bool) (annot : Annot α)
      (g : Grammar α (List ι)) (f : Nat),
      runRule emp annot g (f + 1) (.base (headFun pred mkRes mismatch)) []
        = some (.error streamEmptyError))
    ∧ (∀ {ι α : Type} [DecidableEq ι] (pred : ι → Bool) (mkRes : ι → Result α)
      (mismatch : ι → Error) (emp : List ι → Bool) (annot : Annot α)
      (g : Grammar α (List ι)) (f : Nat) (h : ι) (t : List ι),
      pred h = false →
      runRule emp annot g (f + 1) (.base (headFun pred mkRes mismatch)) (h :: t)
        = some (.error (mismatch h)))
    ∧ (∀ {ι α : Type} [DecidableEq ι] (pred : ι → Bool) (mkRes : ι → Result α)
      (mismatch : ι → Error) (emp : List ι → Bool) (annot : Annot α)
      (g : Grammar α (List ι)) (f : Nat) (h : ι) (t : List ι),
      pred h = true →
      runRule emp annot g (f + 1) (.base (headFun pred mkRes mismatch)) (h :: t)
        = some (.ok (mkRes h, t)))
    ∧ (∀ (v : Char) (i : LexItem) (t : List LexItem) (emp : List LexItem → Bool)
      (annot : Annot (List Char)) (g : Grammar (List Char) (List LexItem)) (f : Nat),
      v = i.value →
      runRule emp annot g (f + 1) (LexLiteral v) (i :: t)
        = some (.ok (.mk none (some [i.value]) [], t)))
    ∧ (∀ (v : Char) (i : LexItem) (t : List LexItem) (emp : List LexItem → Bool)
      (annot : Annot (List Char)) (g : Grammar (List Char) (List LexItem)) (f : Nat),
      v ≠ i.value →
      runRule emp annot g (f + 1) (LexLiteral v) (i :: t)
        = some (.error (lexLiteralMismatch v i))) := by
  refine ⟨?_, ?_, ?_, ?_, ?_⟩
  · intro ι α _ pred mkRes mismatch emp annot g f
    simp [runRule, headFun]
  · intro ι α _ pred mkRes mismatch emp annot g f h t hp
    simp [runRule, headFun, hp]
  · intro ι α _ pred mkRes mismatch emp annot g f h t hp
    simp [runRule, headFun, hp]
  · intro v i t emp annot g f hv
    simp [runRule, LexLiteral, headFun, hv]
  · intro v i t emp annot g f hv
    simp [runRule, LexLiteral, headFun, hv]

/-- Witness for C7 using lexer literals on concrete positioned items. -/
theorem pysh_c7_witness :
    runRule lexEmp replaceAnnot (Lexer.grammar (mkLexer [])) 2 (LexLiteral 'a') []
        = some (.error streamEmptyError)
    ∧ runRule lexEmp replaceAnnot (Lexer.grammar (mkLexer [])) 2 (LexLiteral 'a')
        (load_state_value ['b'])
        = some (.error (lexLiteralMismatch 'a' ⟨'b', ⟨0, 0⟩⟩))
    ∧ runRule lexEmp replaceAnnot (Lexer.grammar (mkLexer [])) 2 (LexLiteral 'a')
        (load_state_value ['a', 'b'])
        = some (.ok (.mk none (some ['a']) [], [⟨'b', ⟨0, 1⟩⟩])) := by
  refine ⟨?_, ?_, ?_⟩
  · exact pysh_c7_head_rule_behaviour.1 _ _ _ lexEmp replaceAnnot _ 1
  · exact pysh_c7_head_rule_behaviour.2.2.2.2 'a' ⟨'b', ⟨0, 0⟩⟩ [] lexEmp replaceAnnot
      (Lexer.grammar (mkLexer [])) 1 (by decide)
  · exact pysh_c7_head_rule_behaviour.2.2.2.1 'a' ⟨'a', ⟨0, 0⟩⟩ [⟨'b', ⟨0, 1⟩⟩] lexEmp
      replaceAnnot (Lexer.grammar (mkLexer [])) 1 rfl

/-! ## Claim C8 -/

/-- Claim C8: `apply_rule_to_state` annotates a successful result with the
invoked rule's name, re-raises a propagated error annotated with the
invoked rule's name, and raises the descriptive `unknown rule` error for
a name absent from the registry. -/
theorem pysh_c8_apply_rule_annotation :
    (∀ {α σ : Type} [DecidableEq σ] (emp : σ → Bool) (g : Grammar α σ) (f : Nat)
      (n : String) (r : Rule α σ) (st : σ) (res : Result α) (st' : σ),
      lookupRule g n = some r →
      runRule emp replaceAnnot g f r st = some (.ok (res, st')) →
      apply_rule_to_state emp replaceAnnot g f n st
        = some (.ok (res.with_rule_name n, st')))
    ∧ (∀ {α σ : Type} [DecidableEq σ] (emp : σ → Bool) (g : Grammar α σ) (f : Nat)
      (n : String) (r : Rule α σ) (st : σ) (e : Error),
      lookupRule g n = some r →
      runRule emp replaceAnnot g f r st = some (.error e) →
      apply_rule_to_state emp replaceAnnot g f n st
        = some (.error (e.with_rule_name n)))
    ∧ (∀ {α σ : Type} [DecidableEq σ] (emp : σ → Bool) (g : Grammar α σ) (f : Nat)
      (n : String) (st : σ),
      lookupRule g n = none →
      apply_rule_to_state emp replaceAnnot g f n st
        = some (.error (.mk none (some ("unknown rule " ++ n)) []))) := by
  refine ⟨?_, ?_, ?_⟩
  · intro α σ _ emp g f n r st res st' hl hr
    simp [apply_rule_to_state, hl, hr, replaceAnnot]
  · intro α σ _ emp g f n r st e hl hr
    simp [apply_rule_to_state, hl, hr]
  · intro α σ _ emp g f n st hl
    simp [apply_rule_to_state, hl]

/-- Witness for C8 on the one-rule demo registry. -/
theorem pysh_c8_witness :
    lookupRule demoG "a" = some (demoLit 1)
    ∧ apply_rule_to_state demoEmp replaceAnnot demoG 5 "a" [1]
        = some (.ok ((Result.mk none (some 1) []).with_rule_name "a", []))
    ∧ apply_rule_to_state demoEmp replaceAnnot demoG 5 "a" [2]
        = some (.error ((Error.mk none
            (some "literal mismatch expected 1 got 2") []).with_rule_name "a"))
    ∧ apply_rule_to_state demoEmp replaceAnnot demoG 5 "b" [1]
        = some (.error (.mk none (some ("unknown rule " ++ "b")) [])) := by
  refine ⟨rfl, ?_, ?_, ?_⟩
  · exact pysh_c8_apply_rule_annotation.1 demoEmp demoG 5 "a" (demoLit 1) [1] _ _ rfl rfl
  · exact pysh_c8_apply_rule_annotation.2.1 demoEmp demoG 5 "a" (demoLit 1) [2] _ rfl rfl
  · exact pysh_c8_apply_rule_annotation.2.2 demoEmp demoG 5 "b" [1] rfl

/-! ## Claim C9 -/

/-- Claim C9: compiling the grammar-declaration DSL text `a -> b | c;`
with `load_parser` succeeds, and the resulting `Parser`'s root rule name
is `a` (the first declared parser rule) while its rule `a` is
`Or([Ref('b'), Ref('c')])` — the unknown identifiers `b` and `c`
becoming forward `Ref`s. The whole self-hosted pipeline (bootstrap lexer
and parser, DSL lexing, parsing, declaration walk) is evaluated. -/
theorem pysh_c9_load_parser_or_refs :
    (loadParser 100 "a -> b | c;".data).map (fun P => (P.root_rule_name, P.rule "a"))
      = some ("a", some (.or [.ref "b", .ref "c"])) := rfl

/-! ## Claim C10 -/

/-- One unfolding step of `Position.after`. -/
theorem after_cons (p : Position) (c : Char) (rest : List Char) :
    p.after (c :: rest)
      = (if c = '\n' then (⟨p.line + 1, 0⟩ : Position)
         else ⟨p.line, p.column + 1⟩).after rest := rfl

/-- Splitting `takeWhile` over an append whose first part passes the
test. -/
theorem takeWhile_append_of_all (q : Char → Bool) {l1 : List Char} (l2 : List Char)
    (h : l1.all q = true) : (l1 ++ l2).takeWhile q = l1 ++ l2.takeWhile q := by
  induction l1 with
  | nil => simp
  | cons c l1 ih =>
    simp only [List.all_cons, Bool.and_eq_true] at h
    simp [List.takeWhile_cons, h.1, ih h.2]

/-- Splitting `takeWhile` over an append whose first part fails the
test somewhere. -/
theorem takeWhile_append_of_not_all (q : Char → Bool) {l1 : List Char} (l2 : List Char)
    (h : l1.all q = false) : (l1 ++ l2).takeWhile q = l1.takeWhile q := by
  induction l1 with
  | nil => simp at h
  | cons c l1 ih =>
    by_cases hc : q c
    · simp only [List.all_cons, hc, Bool.true_and] at h
      simp [List.takeWhile_cons, hc, ih h]
    · simp [List.takeWhile_cons, hc]

/-- A character list passes the no-newline all-test iff it has no
newline. -/
theorem all_ne_newline_iff (l : List Char) :
    (l.all (fun c => c ≠ '\n')) = true ↔ '\n' ∉ l := by
  simp only [List.all_eq_true, decide_eq_true_eq]
  constructor
  · intro h hm
    exact h '\n' hm rfl
  · intro h x hx hc
    exact h (hc ▸ hx)

/-- Line and column of `Position.after`, in the shape of the claim. -/
theorem position_after_spec (s : List Char) : ∀ p : Position,
    (p.after s).line = p.line + s.count '\n'
    ∧ (p.after s).column
      = if '\n' ∈ s then (s.reverse.takeWhile (fun c => c ≠ '\n')).length
        else p.column + s.length := by
  induction s with
  | nil => intro p; simp [Position.after]
  | cons c rest ih =>
    intro p
    by_cases hc : c = '\n'
    · subst hc
      obtain ⟨ihl, ihc⟩ := ih ⟨p.line + 1, 0⟩
      rw [after_cons, if_pos rfl]
      refine ⟨?_, ?_⟩
      · rw [ihl]
        simp only [List.count_cons, beq_self_eq_true, if_true]
        omega
      · rw [ihc, if_pos (List.mem_cons_self _ _), List.reverse_cons]
        by_cases hrest : '\n' ∈ rest
        · rw [if_pos hrest]
          have hall : (rest.reverse.all (fun c => c ≠ '\n')) = false := by
            rw [Bool.eq_false_iff, Ne, all_ne_newline_iff, not_not]
            simpa using hrest
          rw [takeWhile_append_of_not_all _ _ hall]
        · rw [if_neg hrest]
          have hall : (rest.reverse.all (fun c => c ≠ '\n')) = true := by
            rw [all_ne_newline_iff]
            simpa using hrest
          rw [takeWhile_append_of_all _ _ hall]
          simp
    · obtain ⟨ihl, ihc⟩ := ih ⟨p.line, p.column + 1⟩
      rw [after_cons, if_neg hc]
      have hmem : '\n' ∈ c :: rest ↔ '\n' ∈ rest := by
        constructor
        · intro h
          rcases List.mem_cons.mp h with h | h
          · exact absurd h.symm hc
          · exact h
        · intro h
          exact List.mem_cons_of_mem _ h
      refine ⟨?_, ?_⟩
      · rw [ihl]
        have : (c == '\n') = false := by
          simpa using hc
        simp [List.count_cons, this]
      · rw [ihc]
        by_cases hrest : '\n' ∈ rest
        · rw [if_pos hrest, if_pos (hmem.mpr hrest), List.reverse_cons]
          have hall : (rest.reverse.all (fun c => c ≠ '\n')) = false := by
            rw [Bool.eq_false_iff, Ne, all_ne_newline_iff, not_not]
            simpa using hrest
          rw [takeWhile_append_of_not_all _ _ hall]
        · rw [if_neg hrest, if_neg (fun h => hrest (hmem.mp h))]
          simp only [List.length_cons]
          omega

/-- The positioned items built by `load_state_value_go`: character `i`
carries the start position advanced over the first `i` characters. -/
theorem load_state_value_go_spec (s : List Char) : ∀ pos : Position,
    load_state_value_go pos s
      = (List.range s.length).map
          (fun i => ⟨s.getD i ' ', pos.after (s.take i)⟩) := by
  induction s with
  | nil => intro pos; simp [load_state_value_go]
  | cons c rest ih =>
    intro pos
    simp only [load_state_value_go, List.length_cons, List.range_succ_eq_map,
      List.map_cons, List.map_map]
    refine congrArg₂ _ ?_ ?_
    · simp [Position.after]
    · rw [ih (pos.after [c])]
      refine List.map_congr_left ?_
      intro i _
      simp only [Function.comp_apply, List.getD_cons_succ, List.take_succ_cons]
      refine congrArg _ ?_
      show (pos.after [c]).after (rest.take i) = pos.after (c :: rest.take i)
      simp [Position.after]

/-- Claim C10: `Position.after` adds the newline count of `s` to the line;
the resulting column is the number of characters after the last newline
when `s` has one, and the old column plus the length of `s` otherwise;
and `load_state_value` assigns character `i` of the input the position
`Position(0, 0).after` of the first `i` characters. -/
theorem pysh_c10_position_tracking :
    (∀ (p : Position) (s : List Char),
      (p.after s).line = p.line + s.count '\n'
      ∧ (p.after s).column
        = if '\n' ∈ s then (s.reverse.takeWhile (fun c => c ≠ '\n')).length
          else p.column + s.length)
    ∧ (∀ s : List Char,
      load_state_value s
        = (List.range s.length).map
            (fun i => ⟨s.getD i ' ', Position.after ⟨0, 0⟩ (s.take i)⟩)) :=
  ⟨fun p s => position_after_spec s p, fun s => load_state_value_go_spec s ⟨0, 0⟩⟩

/-! ## Claim C6: lexer round-trip -/

section RoundTrip

/-- `flatten` distributes over list append. -/
theorem flattenList_append (l1 l2 : List (Result (List Char))) :
    flattenList (l1 ++ l2) = flattenList l1 ++ flattenList l2 := by
  induction l1 with
  | nil => simp [flattenList]
  | cons r l1 ih => simp [flattenList, ih]

/-- Renaming a result does not change its flattened text. -/
theorem flatten_with_rule_name (r : Result (List Char)) (n : String) :
    flatten (r.with_rule_name n) = flatten r := by
  cases r
  rfl

/-- Flattening an anonymous single-child wrapper. -/
theorem flatten_wrap (x : Result (List Char)) :
    flatten (.mk none none [x]) = flatten x := by
  simp [flatten, flattenList]

/-- A successful registry lookup names an entry of the registry. -/
theorem lookup_mem {α σ : Type} (g : Grammar α σ) (n : String) (r : Rule α σ)
    (h : lookupRule g n = some r) : (n, r) ∈ g.rules := by
  simp only [lookupRule, Option.map_eq_some'] at h
  obtain ⟨p, hp, hpr⟩ := h
  have hmem := List.mem_of_find?_eq_some hp
  have hkey := List.find?_some hp
  simp only [decide_eq_true_eq] at hkey
  cases p
  cases hkey
  cases hpr
  exact hmem

/-- Consumption property threaded through `And.apply`'s loop. -/
theorem andGo_values (A : Rule (List Char) (List LexItem) → List LexItem → Option (PRes (List Char) (List LexItem)))
    (HA : ∀ c st res st', IsLexRule c → A c st = some (.ok (res, st')) →
      flatten res ++ itemValues st' = itemValues st) :
    ∀ (cs : List (Rule (List Char) (List LexItem))) st acc res st',
      (∀ c ∈ cs, IsLexRule c) → andGo A cs st acc = some (.ok (res, st')) →
      flatten res ++ itemValues st' = flattenList acc ++ itemValues st := by
  intro cs
  induction cs with
  | nil =>
    intro st acc res st' _ h
    simp only [andGo, Option.some.injEq, Except.ok.injEq, Prod.mk.injEq] at h
    obtain ⟨⟨rfl, rfl⟩, rfl⟩ := h
    simp [flatten]
  | cons c cs ih =>
    intro st acc res st' hcs h
    simp only [andGo] at h
    split at h
    · exact absurd h (by simp)
    · exact absurd h (by simp)
    · rename_i r0 st0 heq
      have := ih st0 (acc ++ [r0]) res st' (fun c' hc' => hcs c' (by simp [hc'])) h
      rw [this, flattenList_append]
      have h0 := HA c st r0 st0 (hcs c (by simp)) heq
      simp only [flattenList, List.append_nil]
      rw [List.append_assoc, h0]

/-- Consumption property for `Or.apply`'s loop. -/
theorem orGo_values (A : Rule (List Char) (List LexItem) → List LexItem → Option (PRes (List Char) (List LexItem)))
    (HA : ∀ c st res st', IsLexRule c → A c st = some (.ok (res, st')) →
      flatten res ++ itemValues st' = itemValues st) :
    ∀ (cs : List (Rule (List Char) (List LexItem))) st errs res st',
      (∀ c ∈ cs, IsLexRule c) → orGo A cs st errs = some (.ok (res, st')) →
      flatten res ++ itemValues st' = itemValues st := by
  intro cs
  induction cs with
  | nil =>
    intro st errs res st' _ h
    simp [orGo] at h
  | cons c cs ih =>
    intro st errs res st' hcs h
    simp only [orGo] at h
    split at h
    · exact absurd h (by simp)
    · rename_i p heq
      simp only [Option.some.injEq, Except.ok.injEq] at h
      obtain ⟨res0, st0⟩ := p
      cases h
      have h0 := HA c st res0 st0 (hcs c (by simp)) heq
      simpa [as_child_result, flatten_wrap] using h0
    · exact ih st _ res st' (fun c' hc' => hcs c' (by simp [hc'])) h

/-- Consumption property for the repetition loop. -/
theorem repGo_values (A : List LexItem → Option (PRes (List Char) (List LexItem)))
    (HA : ∀ st res st', A st = some (.ok (res, st')) →
      flatten res ++ itemValues st' = itemValues st) :
    ∀ (lf : Nat) st acc res st',
      repGo A lf st acc = some (.ok (res, st')) →
      flatten res ++ itemValues st' = flattenList acc ++ itemValues st := by
  intro lf
  induction lf with
  | zero => intro st acc res st' h; simp [repGo] at h
  | succ lf ih =>
    intro st acc res st' h
    simp only [repGo] at h
    split at h
    · exact absurd h (by simp)
    · simp only [Option.some.injEq, Except.ok.injEq, Prod.mk.injEq] at h
      obtain ⟨⟨rfl, rfl⟩, rfl⟩ := h
      simp [flatten]
    · rename_i r0 st0 heq
      have := ih st0 (acc ++ [r0]) res st' h
      rw [this, flattenList_append]
      have h0 := HA st r0 st0 heq
      simp only [flattenList, List.append_nil]
      rw [List.append_assoc, h0]

/-- Consumption property for the `UntilEmpty` loop. -/
theorem ueGo_values (A : List LexItem → Option (PRes (List Char) (List LexItem)))
    (HA : ∀ st res st', A st = some (.ok (res, st')) →
      flatten res ++ itemValues st' = itemValues st) :
    ∀ (lf : Nat) st acc res st',
      ueGo lexEmp A lf st acc = some (.ok (res, st')) →
      flatten res ++ itemValues st' = flattenList acc ++ itemValues st := by
  intro lf
  induction lf with
  | zero => intro st acc res st' h; simp [ueGo] at h
  | succ lf ih =>
    intro st acc res st' h
    simp only [ueGo] at h
    split at h
    · simp only [Option.some.injEq, Except.ok.injEq, Prod.mk.injEq] at h
      obtain ⟨⟨rfl, rfl⟩, rfl⟩ := h
      simp [flatten]
    · split at h
      · exact absurd h (by simp)
      · exact absurd h (by simp)
      · rename_i r0 st0 heq
        split at h
        · exact absurd h (by simp)
        · have := ih st0 (acc ++ [r0]) res st' h
          rw [this, flattenList_append]
          have h0 := HA st r0 st0 heq
          simp only [flattenList, List.append_nil]
          rw [List.append_assoc, h0]

/-- The `UntilEmpty` loop only succeeds at an empty final state. -/
theorem ueGo_final_empty {α σ : Type} [DecidableEq σ] (emp : σ → Bool)
    (A : σ → Option (PRes α σ)) :
    ∀ (lf : Nat) (st : σ) acc (res : Result α) (st' : σ),
      ueGo emp A lf st acc = some (.ok (res, st')) → emp st' = true := by
  intro lf
  induction lf with
  | zero => intro st acc res st' h; simp [ueGo] at h
  | succ lf ih =>
    intro st acc res st' h
    simp only [ueGo] at h
    split at h
    · rename_i hemp
      simp only [Option.some.injEq, Except.ok.injEq, Prod.mk.injEq] at h
      obtain ⟨⟨rfl, rfl⟩, rfl⟩ := h
      assumption
    · split at h
      · exact absurd h (by simp)
      · exact absurd h (by simp)
      · rename_i r0 st0 heq
        split at h
        · exact absurd h (by simp)
        · exact ih st0 (acc ++ [r0]) res st' h

/-- Consumption soundness of the lexer interpreter: a successful
application of a lexer rule consumed exactly the characters its result
flattens to. -/
theorem runRule_values {g : Grammar (List Char) (List LexItem)}
    (hg : ∀ p ∈ g.rules, IsLexRule p.2) :
    ∀ (f : Nat) (r : Rule (List Char) (List LexItem)) st res st', IsLexRule r →
      runRule lexEmp replaceAnnot g f r st = some (.ok (res, st')) →
      flatten res ++ itemValues st' = itemValues st := by
  intro f
  induction f with
  | zero => intro r st res st' _ h; simp [runRule] at h
  | succ f ih =>
    intro r st res st' hr hrun
    cases hr with
    | literal v =>
      simp only [LexLiteral, runRule, Option.some.injEq] at hrun
      cases st with
      | nil => simp [headFun, streamEmptyError] at hrun
      | cons i t =>
        simp only [headFun] at hrun
        split at hrun
        · simp only [Except.ok.injEq, Prod.mk.injEq] at hrun
          obtain ⟨⟨rfl, rfl⟩, rfl⟩ := hrun
          simp [flatten, flattenList, itemValues]
        · exact absurd hrun (by simp)
    | cls mn mx =>
      simp only [LexClass, runRule, Option.some.injEq] at hrun
      cases st with
      | nil => simp [headFun, streamEmptyError] at hrun
      | cons i t =>
        simp only [headFun] at hrun
        split at hrun
        · simp only [Except.ok.injEq, Prod.mk.injEq] at hrun
          obtain ⟨⟨rfl, rfl⟩, rfl⟩ := hrun
          simp [flatten, flattenList, itemValues]
        · exact absurd hrun (by simp)
    | notr hc =>
      simp only [LexNot, runRule] at hrun
      split at hrun
      · exact absurd hrun (by simp)
      · split at hrun
        · exact absurd hrun (by simp)
        · simp only [Option.some.injEq] at hrun
          cases st with
          | nil => simp at hrun
          | cons i t =>
            simp only [Except.ok.injEq, Prod.mk.injEq] at hrun
            obtain ⟨⟨rfl, rfl⟩, rfl⟩ := hrun
            simp [flatten, flattenList, itemValues]
        · exact absurd hrun (by simp)
    | ref n =>
      simp only [runRule] at hrun
      split at hrun
      · exact absurd hrun (by simp)
      · rename_i r2 hlook
        split at hrun
        · exact absurd hrun (by simp)
        · rename_i res0 st0 heq
          simp only [Option.some.injEq, Except.ok.injEq, Prod.mk.injEq] at hrun
          obtain ⟨⟨rfl, rfl⟩, rfl⟩ := hrun
          have hr2 : IsLexRule r2 := hg (n, r2) (lookup_mem g n r2 hlook)
          have := ih r2 st res0 st0 hr2 heq
          rw [flatten_wrap, replaceAnnot, flatten_with_rule_name]
          exact this
        · exact absurd hrun (by simp)
    | and hcs =>
      simp only [runRule] at hrun
      have := andGo_values (runRule lexEmp replaceAnnot g f)
        (fun c st res st' hc h => ih c st res st' hc h) _ st [] res st' hcs hrun
      simpa [flattenList] using this
    | or hcs =>
      simp only [runRule] at hrun
      exact orGo_values (runRule lexEmp replaceAnnot g f)
        (fun c st res st' hc h => ih c st res st' hc h) _ st [] res st' hcs hrun
    | zeroOrMore hc =>
      simp only [runRule] at hrun
      have := repGo_values (runRule lexEmp replaceAnnot g f _)
        (fun st res st' h => ih _ st res st' hc h) (f + 1) st [] res st' hrun
      simpa [flattenList] using this
    | oneOrMore hc =>
      simp only [runRule] at hrun
      split at hrun
      · exact absurd hrun (by simp)
      · exact absurd hrun (by simp)
      · rename_i r0 st0 heq
        have h0 := ih _ st r0 st0 hc heq
        have := repGo_values (runRule lexEmp replaceAnnot g f _)
          (fun st res st' h => ih _ st res st' hc h) (f + 1) st0 [r0] res st' hrun
        rw [this]
        simp only [flattenList, List.append_nil]
        exact h0
    | zeroOrOne hc =>
      simp only [runRule] at hrun
      split at hrun
      · exact absurd hrun (by simp)
      · rename_i p heq
        obtain ⟨res0, st0⟩ := p
        simp only [Option.some.injEq, Except.ok.injEq] at hrun
        cases hrun
        have h0 := ih _ st res0 st0 hc heq
        simpa [as_child_result, flatten_wrap] using h0
      · simp only [Option.some.injEq, Except.ok.injEq, Prod.mk.injEq] at hrun
        obtain ⟨⟨rfl, rfl⟩, rfl⟩ := hrun
        simp [flatten, flattenList]
    | untilEmpty hc =>
      simp only [runRule] at hrun
      have := ueGo_values (runRule lexEmp replaceAnnot g f _)
        (fun st res st' h => ih _ st res st' hc h) (f + 1) st [] res st' hrun
      simpa [flattenList] using this

/-- Inversion of a successful `Or.apply`: some child succeeded and its
wrapped result is returned. -/
theorem orGo_ok_inv {α σ : Type} (A : Rule α σ → σ → Option (PRes α σ)) :
    ∀ (cs : List (Rule α σ)) (st : σ) (errs : List Error) (q : Result α × σ),
      orGo A cs st errs = some (.ok q) →
      ∃ c ∈ cs, ∃ p, A c st = some (.ok p) ∧ q = as_child_result p := by
  intro cs
  induction cs with
  | nil => intro st errs q h; simp [orGo] at h
  | cons c cs ih =>
    intro st errs q h
    simp only [orGo] at h
    split at h
    · exact absurd h (by simp)
    · rename_i p heq
      simp only [Option.some.injEq, Except.ok.injEq] at h
      exact ⟨c, by simp, p, heq, h.symm⟩
    · obtain ⟨c', hc', p, hp, hq⟩ := ih st _ q h
      exact ⟨c', by simp [hc'], p, hp, hq⟩

/-- Inversion of a successful `Ref.apply`: the referenced rule was looked
up, applied, annotated and wrapped. -/
theorem ref_ok_inv {α σ : Type} [DecidableEq σ] (emp : σ → Bool) (annot : Annot α)
    (g : Grammar α σ) (f : Nat) (n : String) (st : σ) (q : Result α × σ)
    (h : runRule emp annot g f (.ref n) st = some (.ok q)) :
    ∃ f' r2 res0 st0, f = f' + 1 ∧ lookupRule g n = some r2 ∧
      runRule emp annot g f' r2 st = some (.ok (res0, st0)) ∧
      q = (.mk none none [annot n res0], st0) := by
  cases f with
  | zero => simp [runRule] at h
  | succ f =>
    simp only [runRule] at h
    split at h
    · exact absurd h (by simp)
    · rename_i r2 hlook
      split at h
      · exact absurd h (by simp)
      · rename_i res0 st0 heq
        simp only [Option.some.injEq, Except.ok.injEq] at h
        exact ⟨f, r2, res0, st0, rfl, hlook, heq, h.symm⟩
      · exact absurd h (by simp)

/-- `dict[k] = v` on a dict without key `k` appends the binding. -/
theorem dictSet_fresh {β : Type} (l : List (String × β)) (k : String) (v : β)
    (h : ∀ p ∈ l, p.1 ≠ k) : dictSet l k v = l ++ [(k, v)] := by
  unfold dictSet
  have hany : l.any (fun p => p.1 = k) = false := by
    rw [List.any_eq_false]
    intro p hp
    simpa using h p hp
  simp [hany]

/-- `Lexer.__init__` on token rules whose names avoid the synthesized
names appends `_root` and `_rules` to the registry. -/
theorem mkLexerRules_fresh (rules : List (String × Rule (List Char) (List LexItem)))
    (hfresh : ∀ p ∈ rules, p.1 ≠ "_root" ∧ p.1 ≠ "_rules") :
    mkLexerRules rules
      = rules ++ [("_root", .untilEmpty (.ref "_rules")),
          ("_rules", .or (rules.map (fun p => Rule.ref p.1)))] := by
  unfold mkLexerRules
  rw [dictSet_fresh _ _ _ (fun p hp => (hfresh p hp).1)]
  rw [dictSet_fresh]
  · simp
  · intro p hp
    rcases List.mem_append.mp hp with hp | hp
    · exact (hfresh p hp).2
    · simp only [List.mem_singleton] at hp
      subst hp
      simp

/-- Registry lookup skips a block of entries with different keys. -/
theorem lookupRule_append_right {α σ : Type} (root : String)
    (l1 l2 : List (String × Rule α σ)) (n : String) (h : ∀ p ∈ l1, p.1 ≠ n) :
    lookupRule ⟨root, l1 ++ l2⟩ n = lookupRule ⟨root, l2⟩ n := by
  simp only [lookupRule]
  rw [List.find?_append, List.find?_eq_none.mpr]
  · simp
  · intro p hp
    simpa using h p hp

/-- The `UntilEmpty` loop preserves a shape invariant of each repetition
result. -/
theorem ueGo_shape {α σ : Type} [DecidableEq σ] (emp : σ → Bool)
    (A : σ → Option (PRes α σ)) (P : Result α → Prop)
    (HA : ∀ st q, A st = some (.ok q) → P q.1) :
    ∀ (lf : Nat) (st : σ) acc (res : Result α) (st' : σ),
      (∀ r ∈ acc, P r) → ueGo emp A lf st acc = some (.ok (res, st')) →
      ∃ l, res = .mk none none l ∧ ∀ r ∈ l, P r := by
  intro lf
  induction lf with
  | zero => intro st acc res st' _ h; simp [ueGo] at h
  | succ lf ih =>
    intro st acc res st' hacc h
    simp only [ueGo] at h
    split at h
    · simp only [Option.some.injEq, Except.ok.injEq, Prod.mk.injEq] at h
      obtain ⟨⟨rfl, rfl⟩, rfl⟩ := h
      exact ⟨acc, rfl, hacc⟩
    · split at h
      · exact absurd h (by simp)
      · exact absurd h (by simp)
      · split at h
        · exact absurd h (by simp)
        · rename_i r0 st0 heq hne
          refine ih st0 (acc ++ [r0]) res st' ?_ h
          intro r hr
          rcases List.mem_append.mp hr with hr | hr
          · exact hacc r hr
          · simp only [List.mem_singleton] at hr
            rw [hr]
            exact HA st (r0, st0) heq

/-- Lookup of the synthesized `_rules` rule in a lexer grammar with fresh
token-rule names. -/
theorem lexGrammar_lookup_rules (rules : List (String × Rule (List Char) (List LexItem)))
    (hfresh : ∀ p ∈ rules, p.1 ≠ "_root" ∧ p.1 ≠ "_rules") :
    lookupRule (Lexer.grammar (mkLexer rules)) "_rules"
      = some (.or (rules.map (fun p => Rule.ref p.1))) := by
  show lookupRule ⟨"_root", mkLexerRules rules⟩ "_rules" = _
  rw [mkLexerRules_fresh rules hfresh,
    lookupRule_append_right _ rules _ _ (fun p hp => (hfresh p hp).2)]
  rfl

/-- Lookup of the synthesized `_root` rule in a lexer grammar with fresh
token-rule names. -/
theorem lexGrammar_lookup_root (rules : List (String × Rule (List Char) (List LexItem)))
    (hfresh : ∀ p ∈ rules, p.1 ≠ "_root" ∧ p.1 ≠ "_rules") :
    lookupRule (Lexer.grammar (mkLexer rules)) "_root"
      = some (.untilEmpty (.ref "_rules")) := by
  show lookupRule ⟨"_root", mkLexerRules rules⟩ "_root" = _
  rw [mkLexerRules_fresh rules hfresh,
    lookupRule_append_right _ rules _ _ (fun p hp => (hfresh p hp).1)]
  rfl

/-- Each repetition of the lexer root's `Ref('_rules')` produces a result
of the `ShapedIter` shape: a wrapper, the `_rules`-annotated `Or` result,
an inner wrapper, and a result named by some token type. -/
theorem rules_ref_shape (rules : List (String × Rule (List Char) (List LexItem)))
    (hfresh : ∀ p ∈ rules, p.1 ≠ "_root" ∧ p.1 ≠ "_rules")
    (f : Nat) (st : List LexItem) (q : Result (List Char) × List LexItem)
    (h : runRule lexEmp replaceAnnot (Lexer.grammar (mkLexer rules)) f
      (.ref "_rules") st = some (.ok q)) :
    ShapedIter (rules.map (fun p => p.1)) q.1 := by
  obtain ⟨f1, r2, res0, st0, rfl, hlook, hrun0, hq⟩ :=
    ref_ok_inv lexEmp replaceAnnot _ f "_rules" st q h
  rw [lexGrammar_lookup_rules rules hfresh, Option.some.injEq] at hlook
  subst hlook
  cases f1 with
  | zero => simp [runRule] at hrun0
  | succ f2 =>
    simp only [runRule] at hrun0
    obtain ⟨c, hc, p, hp, hpq⟩ := orGo_ok_inv _ _ st [] (res0, st0) hrun0
    obtain ⟨pp, hpp, hceq⟩ := List.mem_map.mp hc
    subst hceq
    obtain ⟨f3, r3, res1, st1, rfl, hlook3, hrun1, hpdef⟩ :=
      ref_ok_inv lexEmp replaceAnnot _ f2 pp.1 st p hp
    subst hpdef
    simp only [as_child_result, Prod.mk.injEq] at hpq
    obtain ⟨rfl, rfl⟩ := hpq
    subst hq
    exact ⟨pp.1, res1.value, res1.children, List.mem_map.mpr ⟨pp, hpp, rfl⟩, by
      simp [replaceAnnot, Result.with_rule_name, Result.value, Result.children]⟩

/-- Inversion of a successful `apply_rule_to_state`: the name was found,
the rule succeeded, and the result was annotated. -/
theorem apply_rule_to_state_ok_inv {α σ : Type} [DecidableEq σ] (emp : σ → Bool)
    (annot : Annot α) (g : Grammar α σ) (fuel : Nat) (n : String) (st : σ)
    (q : Result α × σ)
    (h : apply_rule_to_state emp annot g fuel n st = some (.ok q)) :
    ∃ r res0 st0, lookupRule g n = some r
      ∧ runRule emp annot g fuel r st = some (.ok (res0, st0))
      ∧ q = (annot n res0, st0) := by
  unfold apply_rule_to_state at h
  split at h
  · exact absurd h (by simp)
  · rename_i r hlook
    split at h
    · exact absurd h (by simp)
    · rename_i res0 st0 hrun
      simp only [Option.some.injEq, Except.ok.injEq] at h
      exact ⟨r, res0, st0, hlook, hrun, h.symm⟩
    · exact absurd h (by simp)

/-- With fresh token-rule names, `token_types` is the declared names, in
order. -/
theorem token_types_fresh (rules : List (String × Rule (List Char) (List LexItem)))
    (hfresh : ∀ p ∈ rules, p.1 ≠ "_root" ∧ p.1 ≠ "_rules") :
    (mkLexer rules).token_types = rules.map (fun p => p.1) := by
  show ((mkLexerRules rules).filter _).map _ = _
  rw [mkLexerRules_fresh rules hfresh, List.filter_append]
  have h1 : rules.filter (fun p => p.1 ≠ "_root" ∧ p.1 ≠ "_rules") = rules := by
    rw [List.filter_eq_self]
    intro p hp
    simpa using hfresh p hp
  rw [h1]
  simp

/-- The `where` collection of one shaped repetition result: exactly the
token-named node, with the same flattened text. -/
theorem whereR_iter (ns : List String) (hrules : "_rules" ∉ ns)
    (r : Result (List Char)) (h : ShapedIter ns r) :
    ∃ n v cs, n ∈ ns ∧ (whereR (rule_name_in ns) r).children = [.mk (some n) v cs]
      ∧ flatten r = flatten (.mk (some n) v cs) := by
  obtain ⟨n, v, cs, hn, rfl⟩ := h
  refine ⟨n, v, cs, hn, ?_, ?_⟩
  · simp [whereR, whereList, rule_name_in, Result.rule_name, Result.children, hn, hrules]
  · simp [flatten, flattenList]

/-- The `where` collection over a list of shaped repetition results:
one token-named node per repetition, preserving the flattened text. -/
theorem whereList_iters (ns : List String) (hrules : "_rules" ∉ ns) :
    ∀ l : List (Result (List Char)), (∀ r ∈ l, ShapedIter ns r) →
      flattenList (whereList (rule_name_in ns) l) = flattenList l
      ∧ ∀ r ∈ whereList (rule_name_in ns) l, ∃ n ∈ ns, r.rule_name = some n := by
  intro l
  induction l with
  | nil => intro _; simp [whereList, flattenList]
  | cons r l ih =>
    intro hall
    obtain ⟨n, v, cs, hn, hchildren, hflat⟩ := whereR_iter ns hrules r (hall r (by simp))
    obtain ⟨ih1, ih2⟩ := ih (fun r' hr' => hall r' (by simp [hr']))
    constructor
    · show flattenList ((whereR (rule_name_in ns) r).children ++ _) = _
      rw [hchildren, flattenList_append, ih1]
      simp only [flattenList, List.append_nil]
      rw [← hflat]
    · intro r' hr'
      rw [show whereList (rule_name_in ns) (r :: l)
          = (whereR (rule_name_in ns) r).children ++ whereList (rule_name_in ns) l from rfl,
        hchildren] at hr'
      rcases List.mem_append.mp hr' with hr' | hr'
      · simp only [List.mem_singleton] at hr'
        rw [hr']
        exact ⟨n, hn, rfl⟩
      · exact ih2 r' hr'

/-- `flatten` over a list agrees with mapping and concatenating. -/
theorem flattenList_eq_map (l : List (Result (List Char))) :
    flattenList l = (l.map flatten).flatten := by
  induction l with
  | nil => simp [flattenList]
  | cons r l ih => simp [flattenList, ih]

/-- The characters of the positioned stream are the input characters. -/
theorem load_state_value_values (s : List Char) :
    itemValues (load_state_value s) = s := by
  suffices h : ∀ pos, itemValues (load_state_value_go pos s) = s from h _
  induction s with
  | nil => intro pos; simp [load_state_value_go, itemValues]
  | cons c rest ih =>
    intro pos
    simp only [load_state_value_go, itemValues, List.map_cons, List.cons.injEq]
    exact ⟨trivial, ih _⟩

/-- The lexer grammar is made of lexer rule variants when its token rules
are. -/
theorem lexGrammar_rules_good (rules : List (String × Rule (List Char) (List LexItem)))
    (hfresh : ∀ p ∈ rules, p.1 ≠ "_root" ∧ p.1 ≠ "_rules")
    (hlex : ∀ p ∈ rules, IsLexRule p.2) :
    ∀ p ∈ (Lexer.grammar (mkLexer rules)).rules, IsLexRule p.2 := by
  intro p hp
  rw [show (Lexer.grammar (mkLexer rules)).rules = mkLexerRules rules from rfl,
    mkLexerRules_fresh rules hfresh] at hp
  rcases List.mem_append.mp hp with hp | hp
  · exact hlex p hp
  · rcases List.mem_cons.mp hp with hp | hp
    · rw [hp]
      exact IsLexRule.untilEmpty (IsLexRule.ref _)
    · simp only [List.mem_singleton] at hp
      rw [hp]
      refine IsLexRule.or ?_
      intro c hc
      obtain ⟨pp, _, hceq⟩ := List.mem_map.mp hc
      rw [← hceq]
      exact IsLexRule.ref _

/-- Claim C6 (amended): for every lexer whose token rules are lexer rule
variants and whose token-type names do not begin with the reserved
internal marker `_`, a successful `Lexer.apply` emits tokens whose
values, concatenated in order, reproduce the input text exactly. -/
theorem pysh_c6_round_trip_amended
    (rules : List (String × Rule (List Char) (List LexItem)))
    (input : List Char) (fuel : Nat) (toks : List Token)
    (hlex : ∀ p ∈ rules, IsLexRule p.2)
    (hnames : ∀ p ∈ rules, startsWithUnderscore p.1 = false)
    (happ : (mkLexer rules).apply fuel input = some (.ok toks)) :
    tokensText toks = input := by
  have hfresh : ∀ p ∈ rules, p.1 ≠ "_root" ∧ p.1 ≠ "_rules" := by
    intro p hp
    constructor
    · intro he
      have hw := hnames p hp
      rw [he] at hw
      exact absurd hw (by decide)
    · intro he
      have hw := hnames p hp
      rw [he] at hw
      exact absurd hw (by decide)
  have hns_root : "_root" ∉ rules.map (fun p => p.1) := by
    intro hmem
    obtain ⟨p, hp, hpe⟩ := List.mem_map.mp hmem
    exact (hfresh p hp).1 hpe
  have hns_rules : "_rules" ∉ rules.map (fun p => p.1) := by
    intro hmem
    obtain ⟨p, hp, hpe⟩ := List.mem_map.mp hmem
    exact (hfresh p hp).2 hpe
  unfold Lexer.apply at happ
  split at happ
  · exact absurd happ (by simp)
  · exact absurd happ (by simp)
  · rename_i res stend hast
    simp only [Option.some.injEq, Except.ok.injEq] at happ
    subst happ
    obtain ⟨rr, res0, st', hlook, hrunroot, hq⟩ :=
      apply_rule_to_state_ok_inv lexEmp replaceAnnot _ fuel "_root"
        (load_state_value input) (res, stend) hast
    rw [lexGrammar_lookup_root rules hfresh, Option.some.injEq] at hlook
    subst hlook
    simp only [Prod.mk.injEq] at hq
    obtain ⟨rfl, rfl⟩ := hq
    have hcons := runRule_values (lexGrammar_rules_good rules hfresh hlex) fuel
        (.untilEmpty (.ref "_rules")) (load_state_value input) res0 stend
        (IsLexRule.untilEmpty (IsLexRule.ref _)) hrunroot
    cases fuel with
    | zero => simp [runRule] at hrunroot
    | succ f =>
      simp only [runRule] at hrunroot
      have hempty := ueGo_final_empty lexEmp _ (f + 1) (load_state_value input) []
        res0 stend hrunroot
      have hstend : stend = [] := by
        cases stend with
        | nil => rfl
        | cons i t => simp [lexEmp] at hempty
      subst hstend
      obtain ⟨l, rfl, hl⟩ := ueGo_shape lexEmp _ (ShapedIter (rules.map (fun p => p.1)))
        (fun st q hq => rules_ref_shape rules hfresh f st q hq)
        (f + 1) (load_state_value input) [] res0 [] (by simp) hrunroot
      have hflat : flatten (.mk none none l) = input := by
        have := hcons
        rw [load_state_value_values] at this
        simpa [itemValues] using this
      unfold Lexer.token_stream_from_result
      rw [token_types_fresh rules hfresh]
      have hwr : whereR (rule_name_in (rules.map (fun p => p.1)))
          (replaceAnnot "_root" (.mk none none l))
          = .mk none none (whereList (rule_name_in (rules.map (fun p => p.1))) l) := by
        simp [replaceAnnot, Result.with_rule_name, Result.value, Result.children,
          Result.rule_name, whereR, rule_name_in, hns_root]
      rw [hwr]
      obtain ⟨hflatl, hnamed⟩ := whereList_iters (rules.map (fun p => p.1)) hns_rules l hl
      have hfilter :
          ((whereList (rule_name_in (rules.map (fun p => p.1))) l).map
            token_from_result).filter (fun t => ¬ startsWithUnderscore t.type)
          = (whereList (rule_name_in (rules.map (fun p => p.1))) l).map
              token_from_result := by
        rw [List.filter_eq_self]
        intro t ht
        obtain ⟨r, hr, hteq⟩ := List.mem_map.mp ht
        obtain ⟨n, hn, hname⟩ := hnamed r hr
        obtain ⟨p, hp, hpe⟩ := List.mem_map.mp hn
        subst hteq
        simp only [token_from_result, hname, Option.getD_some]
        rw [← hpe]
        simp [hnames p hp]
      show tokensText (List.filter _ (List.map _ (Result.children _))) = input
      rw [show Result.children (.mk none none (whereList
        (rule_name_in (rules.map (fun p => p.1))) l)) = whereList
        (rule_name_in (rules.map (fun p => p.1))) l from rfl]
      rw [hfilter]
      unfold tokensText
      rw [List.map_map]
      have hval : (token_from_result · |>.value) ∘ id = fun r => flatten r := rfl
      rw [show (Token.value ∘ token_from_result) = flatten from rfl]
      rw [← flattenList_eq_map, hflatl]
      rw [← hflat]
      simp [flatten]

/-- Claim C6 (counterexample): a lexer whose one token rule is named with
the reserved internal marker `_` lexes `"a"` successfully but emits no
tokens — the `_`-prefixed token is filtered out of the stream
(lexer.py lines 104-114) — so the concatenation of the emitted token
values does not reproduce the input. -/
theorem pysh_c6_counterexample :
    (mkLexer [("_a", LexLiteral 'a')]).apply 10 ['a'] = some (.ok [])
    ∧ tokensText [] ≠ ['a'] :=
  ⟨rfl, by simp [tokensText]⟩

/-- Witness for the amended C6: the spec's end-to-end example 1, rules
`{a: Literal('a'), b: OneOrMore(Literal('c'))}` over input `"acc"`. -/
theorem pysh_c6_witness :
    (∀ p ∈ ([("a", LexLiteral 'a'), ("b", .oneOrMore (LexLiteral 'c'))] :
        List (String × Rule (List Char) (List LexItem))), IsLexRule p.2)
    ∧ (∀ p ∈ ([("a", LexLiteral 'a'), ("b", .oneOrMore (LexLiteral 'c'))] :
        List (String × Rule (List Char) (List LexItem))),
        startsWithUnderscore p.1 = false)
    ∧ (mkLexer [("a", LexLiteral 'a'), ("b", .oneOrMore (LexLiteral 'c'))]).apply 10
        ['a', 'c', 'c'] = some (.ok [⟨"a", ['a']⟩, ⟨"b", ['c', 'c']⟩])
    ∧ tokensText [⟨"a", ['a']⟩, ⟨"b", ['c', 'c']⟩] = ['a', 'c', 'c'] := by
  have hlex : ∀ p ∈ ([("a", LexLiteral 'a'), ("b", .oneOrMore (LexLiteral 'c'))] :
      List (String × Rule (List Char) (List LexItem))), IsLexRule p.2 := by
    intro p hp
    rcases List.mem_cons.mp hp with h | h
    · rw [h]
      exact IsLexRule.literal 'a'
    · simp only [List.mem_singleton] at h
      rw [h]
      exact IsLexRule.oneOrMore (IsLexRule.literal 'c')
  have hnames : ∀ p ∈ ([("a", LexLiteral 'a'), ("b", .oneOrMore (LexLiteral 'c'))] :
      List (String × Rule (List Char) (List LexItem))),
      startsWithUnderscore p.1 = false := by
    intro p hp
    rcases List.mem_cons.mp hp with h | h
    · rw [h]
      decide
    · simp only [List.mem_singleton] at h
      rw [h]
      decide
  exact ⟨hlex, hnames, rfl,
    pysh_c6_round_trip_amended _ ['a', 'c', 'c'] 10 _ hlex hnames rfl⟩

end RoundTrip

end Pysh
